import Mathlib

set_option maxRecDepth 100000

/-!
Verification of the transaction aggregation engine (`processTransactions` in
`src/unnamed/part_005` of the paisa repository, the file the design spec was
written from) against the spec's testable properties.

Embedding conventions:
* A calendar date string "YYYY-MM-DD" is embedded as a `Ymd` triple; the JS
  code parses every date string at local noon (`new Date(s + "T12:00:00")`),
  so the parsed components are exactly the triple's components and lexicographic
  comparison of the strings (for four-digit years) is lexicographic comparison
  of the triples.
* The JS `parseFloat` result on a transaction's amount string is embedded as
  `Option ℚ`: `none` stands for NaN (no numeric prefix in the string), and
  `some q` for a finite parsed value ("-0" parses to `some 0`, and `-0 < 0` is
  false in JS exactly as `(0:ℚ) < 0` is false here). All JS number arithmetic
  downstream is embedded as exact rational arithmetic; `Math.round` is
  `jround q = ⌊q + 1/2⌋` (JS rounds half-up).
* JS `Record<string, number>` objects accumulated by insertion are embedded as
  association lists that update in place on existing keys and append new keys,
  matching JS string-key enumeration order for non-integer-like keys.
  `Record<number, ...>` objects that the code only ever reads back pointwise or
  enumerates through an explicit final numeric sort are embedded as functions
  resp. deduplicated key lists.
* `Array.prototype.sort` (stable since ES2019) with comparator `c` is embedded
  as `List.mergeSort` (stable) with the Bool relation `le a b ↔ c a b ≤ 0`.
* The engine reads the wall clock (`const now = new Date()`); the embedding
  passes that read as an explicit `now : Ymd` argument.
-/

/-- Calendar date triple standing for a "YYYY-MM-DD" string. -/
structure Ymd where
  year : Nat
  month : Nat
  day : Nat
deriving DecidableEq, Repr

/-- Source `isLeapYear`: Gregorian rule. -/
def isLeapYear (year : Nat) : Bool :=
  (year % 4 == 0 && year % 100 != 0) || year % 400 == 0

/-- Number of days in a Gregorian calendar year. -/
def daysInYear (y : Nat) : Nat := if isLeapYear y then 366 else 365

/-- Length of month `m` (1-12) in a year whose leap status is `leap`.
Out-of-range months fall back to 31 (unreachable from the engine). -/
def monthLength (leap : Bool) (m : Nat) : Nat :=
  match m with
  | 2 => if leap then 29 else 28
  | 4 => 30
  | 6 => 30
  | 9 => 30
  | 11 => 30
  | _ => 31

/-- Ordinal day of the year (1-based) of a date, i.e. the value the source
`getDayOfYear` computes from the millisecond difference to `startOfYear`
(the half-day offset of the noon parse absorbs any DST shift). -/
def dayOfYearOrdinal (d : Ymd) : Nat :=
  ((List.range (d.month - 1)).map (fun k => monthLength (isLeapYear d.year) (k + 1))).sum + d.day

/-- Source `getDayOfYear`: 0 when the date's year differs from `year`, else the
ordinal day of year. -/
def getDayOfYear (d : Ymd) (year : Nat) : Nat :=
  if d.year == year then dayOfYearOrdinal d else 0

/-- Source `getDayOfMonth` (`getDate` of the noon-parsed date). -/
def getDayOfMonth (d : Ymd) : Nat := d.day

/-- Source `getWeekOfMonth`: `min(5, ceil(day / 7))`. -/
def getWeekOfMonth (d : Ymd) : Nat := min 5 ((d.day + 6) / 7)

/-- Days strictly before January 1 of year `y` in the proleptic Gregorian
calendar (counting from year 1). -/
def daysBeforeYear (y : Nat) : Nat :=
  365 * (y - 1) + ((y - 1) / 4 - (y - 1) / 100 + (y - 1) / 400)

/-- ISO weekday (Monday = 1 .. Sunday = 7). Calibrated so that 2024-01-01 is a
Monday. -/
def isoWeekday (d : Ymd) : Nat :=
  (daysBeforeYear d.year + dayOfYearOrdinal d + 6) % 7 + 1

/-- Number of ISO weeks in year `y`: 53 when Jan 1 is a Thursday, or a
Wednesday of a leap year; else 52. -/
def isoWeeksInYear (y : Nat) : Nat :=
  let wd := isoWeekday ⟨y, 1, 1⟩
  if wd == 4 || (isLeapYear y && wd == 3) then 53 else 52

/-- ISO 8601 week number of a date (`date-fns` `getISOWeek`). -/
def getISOWeek (d : Ymd) : Nat :=
  let doy := dayOfYearOrdinal d
  let wd := isoWeekday d
  let w := (doy + 10 - wd) / 7
  if w == 0 then isoWeeksInYear (d.year - 1)
  else if isoWeeksInYear d.year < w then 1
  else w

/-- Source `getWeekNumber` (ISO week of the noon-parsed date). -/
def getWeekNumber (d : Ymd) : Nat := getISOWeek d

/-- Auxiliary month walk for `dateFromDayOfYear` (at most 11 steps). -/
def monthDayFromDoyAux (leap : Bool) : Nat → Nat → Nat → Nat × Nat
  | 0, m, doy => (m, doy)
  | fuel + 1, m, doy =>
    if doy ≤ monthLength leap m then (m, doy)
    else monthDayFromDoyAux leap fuel (m + 1) (doy - monthLength leap m)

/-- Source `dateFromDayOfYear`: `addDays(startOfYear, doy - 1)` as a triple;
a day index beyond the year rolls into January of the next year. Only called
with `1 ≤ doy ≤ daysInYear year + 1`. -/
def dateFromDayOfYear (year doy : Nat) : Ymd :=
  if daysInYear year < doy then ⟨year + 1, 1, doy - daysInYear year⟩
  else
    let md := monthDayFromDoyAux (isLeapYear year) 11 1 doy
    ⟨year, md.1, md.2⟩

/-- Source `getDaysInMonth(new Date(year, month - 1, 1))`, with the JS `Date`
month-index rollover for month indices past December. -/
def daysInMonthJS (year month : Nat) : Nat :=
  let idx := month - 1
  monthLength (isLeapYear (year + idx / 12)) (idx % 12 + 1)

/-- JS `Math.round`: round half toward positive infinity. -/
def jround (q : ℚ) : ℤ := ⌊q + 1 / 2⌋

/-- Transaction as delivered by the budgeting API (amount already through
`parseFloat`, see the header comment). -/
structure Transaction where
  id : Nat
  date : Ymd
  amount : Option ℚ
  currency : String
  to_base : Option ℚ
  payee : String
  category_name : Option String
  category_group_name : Option String
  is_income : Bool
  exclude_from_totals : Bool
deriving DecidableEq, Repr

/-- JS `t.category_name || "Uncategorized"`: null and the empty string are
falsy. -/
def normCat (c : Option String) : String :=
  match c with
  | none => "Uncategorized"
  | some s => if s == "" then "Uncategorized" else s

/-- JS `parseFloat(t.amount) < 0`; `NaN < 0` is false. -/
def parseLt0 (a : Option ℚ) : Bool :=
  match a with
  | some q => decide (q < 0)
  | none => false

/-- JS `Math.abs(parseFloat(t.amount))`. The `none` (NaN) case never occurs
after `filterExpenses`, which is the only context in which the engine takes an
absolute value; it is mapped to 0 here. -/
def absParse (a : Option ℚ) : ℚ :=
  match a with
  | some q => |q|
  | none => 0

/-- Source `filterExpenses`: keep non-income, non-excluded transactions whose
parsed amount is strictly negative. -/
def filterExpenses (tx : List Transaction) : List Transaction :=
  tx.filter (fun t => !t.is_income && !t.exclude_from_totals && parseLt0 t.amount)

/-- Source `filterByMonth`: keep transactions of the given year and month. -/
def filterByMonth (tx : List Transaction) (year month : Nat) : List Transaction :=
  tx.filter (fun t => t.date.year == year && t.date.month == month)

/-- JS truthiness of the optional month argument (`month ? _ : _`):
`undefined` and `0` are falsy. -/
def truthyMonth (m : Option Nat) : Option Nat :=
  match m with
  | none => none
  | some 0 => none
  | some (k + 1) => some (k + 1)

/-- Month restriction step of the engine. -/
def monthRestrict (tx : List Transaction) (year : Nat) (m : Option Nat) : List Transaction :=
  match truthyMonth m with
  | some mo => filterByMonth tx year mo
  | none => tx

/-- JS `rec[k] = (rec[k] || 0) + v` on a string-keyed record: update an
existing key in place, else append the new key. -/
def bump (l : List (String × ℚ)) (k : String) (v : ℚ) : List (String × ℚ) :=
  match l with
  | [] => [(k, v)]
  | (k₀, v₀) :: rest => if k₀ == k then (k₀, v₀ + v) :: rest else (k₀, v₀) :: bump rest k v

/-- JS `rec[k] || 0`: value at a key, zero when absent. -/
def lookupD (l : List (String × ℚ)) (k : String) : ℚ :=
  match l with
  | [] => 0
  | (k₀, v₀) :: rest => if k₀ == k then v₀ else lookupD rest k

/-- JS `k in rec`: key presence. -/
def hasKey (l : List (String × ℚ)) (k : String) : Bool :=
  match l with
  | [] => false
  | (k₀, _) :: rest => k₀ == k || hasKey rest k

/-- First-occurrence deduplication, as a JS `Set` built by insertion
(auxiliary accumulator form). -/
def dedupKFAux [DecidableEq α] (seen : List α) : List α → List α
  | [] => []
  | a :: rest =>
    if a ∈ seen then dedupKFAux seen rest else a :: dedupKFAux (a :: seen) rest

/-- JS `[...new Set(l)]`: deduplicate keeping first occurrences. -/
def dedupKF [DecidableEq α] (l : List α) : List α := dedupKFAux [] l

/-- Pointwise update of a number-keyed record embedded as a function. -/
def bumpFun (f : Nat → ℚ) (k : Nat) (v : ℚ) : Nat → ℚ :=
  fun d => if d = k then f d + v else f d

/-- Pointwise update of a nested (day, category)-keyed record. -/
def bumpFunCat (f : Nat → List (String × ℚ)) (k : Nat) (cat : String) (v : ℚ) :
    Nat → List (String × ℚ) :=
  fun d => if d = k then bump (f d) cat v else f d

/-- Per-day accumulation loop (`currentDaily` / `previousDaily`): each
transaction's absolute amount is added at its day index when that index is in
1..maxDays. -/
def accumDaily (getDayF : Ymd → Nat) (maxDays : Nat) (txs : List Transaction) : Nat → ℚ :=
  txs.foldl
    (fun acc t =>
      let day := getDayF t.date
      if 1 ≤ day ∧ day ≤ maxDays then bumpFun acc day (absParse t.amount) else acc)
    (fun _ => 0)

/-- Per-day per-category accumulation loop (`currentDailyByCategory` /
`previousDailyByCategory`). -/
def accumDailyByCat (getDayF : Ymd → Nat) (maxDays : Nat) (txs : List Transaction) :
    Nat → List (String × ℚ) :=
  txs.foldl
    (fun acc t =>
      let day := getDayF t.date
      if 1 ≤ day ∧ day ≤ maxDays then bumpFunCat acc day (normCat t.category_name) (absParse t.amount)
      else acc)
    (fun _ => [])

/-- Per-category accumulation loop (`currentCategorySpend`,
`previousCategorySpend`, and the first loops of `categoryTotals` /
`categoryTotalsPreviousYear`). -/
def accumCategorySpend (txs : List Transaction) : List (String × ℚ) :=
  txs.foldl (fun acc t => bump acc (normCat t.category_name) (absParse t.amount)) []

/-- Ascending lexicographic comparison of embedded date strings
(`a.date.localeCompare(b.date) ≤ 0` for "YYYY-MM-DD" strings). -/
def ymdLe (a b : Ymd) : Bool :=
  decide (a.year < b.year) ||
    (a.year == b.year &&
      (decide (a.month < b.month) || (a.month == b.month && decide (a.day ≤ b.day))))

/-- Chart breakdown entry (source `DailyCategoryBreakdown`). -/
structure DailyCategoryBreakdown where
  name : String
  amount : ℤ
deriving DecidableEq, Repr

/-- Chart difference-driver entry (source `DailyDifferenceDriver`). -/
structure DailyDifferenceDriver where
  name : String
  currentYear : ℤ
  previousYear : ℤ
  difference : ℤ
deriving DecidableEq, Repr

/-- Per-category comparison entry (source `CategorySpend`). -/
structure CategorySpend where
  name : String
  currentYear : ℤ
  previousYear : ℤ
  difference : ℤ
  percentChange : Option ℚ
deriving DecidableEq, Repr

/-- Day point of the chart (source `DailyData`); `dateStr` is always set by the
engine, so it is embedded as a plain field. -/
structure DailyData where
  day : Nat
  currentYear : ℤ
  previousYear : ℤ
  currentDaySpend : ℤ
  previousDaySpend : ℤ
  currentDayCategoryBreakdown : List DailyCategoryBreakdown
  previousDayCategoryBreakdown : List DailyCategoryBreakdown
  differenceDrivers : List DailyDifferenceDriver
  dateStr : Ymd
deriving DecidableEq, Repr

/-- Weekly table row (source `WeeklyDataEntry`). -/
structure WeeklyDataEntry where
  week : Nat
  currentYearTotal : ℤ
  currentYearCount : Nat
  currentYearTransactions : List Transaction
  previousYearTotal : ℤ
  previousYearCount : Nat
  previousYearTransactions : List Transaction
deriving DecidableEq, Repr

/-- Aggregate result (source `SpendSummary`). -/
structure SpendSummary where
  totalCurrentYear : ℤ
  totalPreviousYear : ℤ
  difference : ℤ
  percentChange : Option ℚ
  dailyData : List DailyData
  topCategories : List CategorySpend
  allCategoryNames : List String
  currentWeek : Nat
  totalWeeksInView : Nat
  currentYearWeeklyAvg : ℤ
  previousYearWeeklyAvg : ℤ
  month : Option Nat
  totalDaysInView : Nat
  weeklyData : List WeeklyDataEntry
  categoryTotals : List (String × ℤ)
  categoryTotalsPreviousYear : List (String × ℤ)
  currentDayNum : Option Nat
deriving DecidableEq, Repr

/-- Comparator embedding of `.sort((a, b) => a.localeCompare(b))`. -/
def strLe (a b : String) : Bool := decide (a ≤ b)

/-- Source `allCategoryNames`: normalized categories of both pre-exclusion
expense sets, first current then previous, deduplicated by a `Set` and sorted
lexicographically. -/
def allCategoryNamesOf (cePre pePre : List Transaction) : List String :=
  List.mergeSort (dedupKF ((cePre ++ pePre).map (fun t => normCat t.category_name))) strLe

/-- Missing-key padding loop of `categoryTotals` construction: every name of
`names` absent from the record is appended with value 0. -/
def ensureKeys (base : List (String × ℚ)) (names : List String) : List (String × ℚ) :=
  names.foldl (fun acc n => if hasKey acc n then acc else acc ++ [(n, 0)]) base

/-- Source `categoryTotals` / `categoryTotalsPreviousYear`: per-category
absolute spend over one pre-exclusion expense set, padded with zeros for every
known category name, then rounded at exposure. -/
def categoryTotalsOf (txs : List Transaction) (names : List String) : List (String × ℤ) :=
  (ensureKeys (accumCategorySpend txs) names).map (fun p => (p.1, jround p.2))

/-- Source category-exclusion step: skipped for an absent or empty list. -/
def exclusionFilter (e : Option (List String)) (txs : List Transaction) : List Transaction :=
  match e with
  | some l => if l.length != 0 then txs.filter (fun t => !(l.contains (normCat t.category_name))) else txs
  | none => txs

/-- Source `getWeek`: week-of-month in month view, ISO week in year view. -/
def getWeekFn (m : Option Nat) : Ymd → Nat :=
  match truthyMonth m with
  | some _ => getWeekOfMonth
  | none => getWeekNumber

/-- Source `getDay`: day-of-month in month view, day-of-year (relative to the
given period's year) in year view. -/
def getDayFn (m : Option Nat) (year : Nat) : Ymd → Nat :=
  match truthyMonth m with
  | some _ => getDayOfMonth
  | none => fun d => getDayOfYear d year

/-- Source `currentWeekNum`. -/
def currentWeekNumOf (m : Option Nat) (currentYear : Nat) (now : Ymd) : Nat :=
  match truthyMonth m with
  | some mo => if now.year == currentYear && now.month == mo then min 5 ((now.day + 6) / 7) else 5
  | none => if now.year == currentYear then getISOWeek now else 52

/-- Source `isCurrentYear`. -/
def isCurrentYearOf (currentYear : Nat) (now : Ymd) : Bool := now.year == currentYear

/-- Source `isCurrentMonth` (`month != null && now.getMonth() + 1 === month`;
note this uses null-ness, not truthiness, of the month argument). -/
def isCurrentMonthOf (m : Option Nat) (now : Ymd) : Bool :=
  match m with
  | none => false
  | some k => now.month == k

/-- Source `maxDays`. -/
def maxDaysOf (m : Option Nat) (currentYear : Nat) : Nat :=
  match truthyMonth m with
  | some mo => daysInMonthJS currentYear mo
  | none => if isLeapYear currentYear then 366 else 365

/-- Source `currentDayNum` (the internal marker, before the output-field
nulling). In the year view of the present year the source formats today's
month and day with the viewed year and reparses, which yields the triple
`⟨currentYear, now.month, now.day⟩`. -/
def currentDayNumOf (m : Option Nat) (currentYear : Nat) (now : Ymd) : Nat :=
  match truthyMonth m with
  | some _ =>
    if isCurrentYearOf currentYear now && isCurrentMonthOf m now then now.day
    else maxDaysOf m currentYear
  | none =>
    if isCurrentYearOf currentYear now then
      getDayOfYear ⟨currentYear, now.month, now.day⟩ currentYear
    else maxDaysOf m currentYear

/-- Source `totalDaysInView` (the engine shows the full year or month). -/
def totalDaysInViewOf (m : Option Nat) (currentYear : Nat) : Nat := maxDaysOf m currentYear

/-- Cumulative loop for the current period: the running sum advances on day
`d + 1` exactly when `d + 1 ≤ currentDayNum` or the viewed year is not the
present year (source line `if (day <= currentDayNum || !isCurrentYear)`). -/
def cumHold (daily : Nat → ℚ) (cdn : Nat) (icy : Bool) : Nat → ℚ
  | 0 => 0
  | d + 1 => cumHold daily cdn icy d + (if d + 1 ≤ cdn ∨ icy = false then daily (d + 1) else 0)

/-- Cumulative loop for the previous period: always advances. -/
def cumPlain (daily : Nat → ℚ) : Nat → ℚ
  | 0 => 0
  | d + 1 => cumPlain daily d + daily (d + 1)

/-- Comparator of `toDailyCategoryBreakdown`:
`b.amount - a.amount || a.name.localeCompare(b.name)` as a before-relation. -/
def bdLe (a b : DailyCategoryBreakdown) : Bool :=
  decide (b.amount < a.amount) || (b.amount == a.amount && strLe a.name b.name)

/-- Source `toDailyCategoryBreakdown`: entries of the day's category record in
insertion order, rounded, positive ones kept, sorted by descending amount with
alphabetical tie-break. -/
def toDailyCategoryBreakdown (dayCategorySpend : List (String × ℚ)) :
    List DailyCategoryBreakdown :=
  List.mergeSort
    ((dayCategorySpend.map (fun p => DailyCategoryBreakdown.mk p.1 (jround p.2))).filter
      (fun e => decide (0 < e.amount)))
    bdLe

/-- Comparator of `toDifferenceDrivers`: descending absolute difference, then
descending combined magnitude, then alphabetical. -/
def ddLe (a b : DailyDifferenceDriver) : Bool :=
  decide (|b.difference| < |a.difference|) ||
    (|b.difference| == |a.difference| &&
      (decide (b.currentYear + b.previousYear < a.currentYear + a.previousYear) ||
        (b.currentYear + b.previousYear == a.currentYear + a.previousYear &&
          strLe a.name b.name)))

/-- Source `toDifferenceDrivers`. -/
def toDifferenceDrivers (cur prev : List (String × ℚ)) : List DailyDifferenceDriver :=
  let names := dedupKF (cur.map Prod.fst ++ prev.map Prod.fst)
  List.mergeSort
    ((names.map (fun n =>
        let cyv := jround (lookupD cur n)
        let pyv := jround (lookupD prev n)
        DailyDifferenceDriver.mk n cyv pyv (cyv - pyv))).filter
      (fun e => decide (0 < e.currentYear) || decide (0 < e.previousYear)))
    ddLe

/-- Date attached to a day index (`dateStr`): composed directly in month view,
via `dateFromDayOfYear` in year view. -/
def dateStrOf (m : Option Nat) (currentYear day : Nat) : Ymd :=
  match truthyMonth m with
  | some mo => ⟨currentYear, mo, day⟩
  | none => dateFromDayOfYear currentYear day

/-- One entry of the `dailyData` loop body at day index `day`. -/
def dailyEntry (m : Option Nat) (currentYear : Nat) (cdn : Nat) (icy : Bool)
    (daily pdaily : Nat → ℚ) (dailyByCat pdailyByCat : Nat → List (String × ℚ))
    (day : Nat) : DailyData :=
  { day := day
    currentYear := jround (cumHold daily cdn icy day)
    previousYear := jround (cumPlain pdaily day)
    currentDaySpend := jround (daily day)
    previousDaySpend := jround (pdaily day)
    currentDayCategoryBreakdown := toDailyCategoryBreakdown (dailyByCat day)
    previousDayCategoryBreakdown := toDailyCategoryBreakdown (pdailyByCat day)
    differenceDrivers := toDifferenceDrivers (dailyByCat day) (pdailyByCat day)
    dateStr := dateStrOf m currentYear day }

/-- Source `dailyData` loop: one entry per day index 1..totalDaysInView. -/
def dailyDataOf (m : Option Nat) (currentYear : Nat) (cdn : Nat) (icy : Bool)
    (daily pdaily : Nat → ℚ) (dailyByCat pdailyByCat : Nat → List (String × ℚ))
    (totalDays : Nat) : List DailyData :=
  (List.range totalDays).map
    (fun i => dailyEntry m currentYear cdn icy daily pdaily dailyByCat pdailyByCat (i + 1))

/-- Source `totalCurrentYearValue`: the cumulative value captured when the loop
reaches the current-day marker of the present year, 0 when never captured. -/
def totalCurrentYearValueOf (daily : Nat → ℚ) (cdn : Nat) (icy : Bool) (totalDays : Nat) : ℚ :=
  if icy = true ∧ 1 ≤ cdn ∧ cdn ≤ totalDays then cumHold daily cdn icy cdn else 0

/-- Comparator of the top-categories sort: descending rounded current-year
amount (`b.currentYear - a.currentYear`). -/
def csLe (a b : CategorySpend) : Bool := decide (b.currentYear ≤ a.currentYear)

/-- Source `topCategories`: union of category keys of both (post-exclusion)
spend records, each reduced to a `CategorySpend`, sorted by descending
current-year amount, first 8 kept. -/
def topCategoriesOf (ccs pcs : List (String × ℚ)) : List CategorySpend :=
  let names := dedupKF (ccs.map Prod.fst ++ pcs.map Prod.fst)
  (List.mergeSort
    (names.map (fun n =>
      let cy := lookupD ccs n
      let py := lookupD pcs n
      CategorySpend.mk n (jround cy) (jround py) (jround (cy - py))
        (if 0 < py then some ((cy - py) / py * 100) else none)))
    csLe).take 8

/-- Members of a week bucket, in input order (the order the loop pushes
them). -/
def weekTxs (getW : Ymd → Nat) (txs : List Transaction) (w : Nat) : List Transaction :=
  txs.filter (fun t => getW t.date == w)

/-- Total of a week bucket. -/
def weekTotal (getW : Ymd → Nat) (txs : List Transaction) (w : Nat) : ℚ :=
  ((weekTxs getW txs w).map (fun t => absParse t.amount)).sum

/-- Source `allWeeks`: union of both periods' bucket keys, deduplicated and
sorted ascending numerically. -/
def allWeeksOf (getW : Ymd → Nat) (ce pe : List Transaction) : List Nat :=
  List.mergeSort
    (dedupKF ((ce.map (fun t => getW t.date)) ++ (pe.map (fun t => getW t.date))))
    (fun a b => decide (a ≤ b))

/-- Within-week transaction sort: ascending by date
(`a.date.localeCompare(b.date)`). -/
def sortTxByDate (txs : List Transaction) : List Transaction :=
  List.mergeSort txs (fun a b => ymdLe a.date b.date)

/-- Source `weeklyData`: one row per key of `allWeeks`, with rounded totals,
counts, and date-ascending transaction lists (empty bucket fields default to
0 resp. the empty list). -/
def weeklyDataOf (getW : Ymd → Nat) (ce pe : List Transaction) : List WeeklyDataEntry :=
  (allWeeksOf getW ce pe).map (fun w =>
    { week := w
      currentYearTotal := jround (weekTotal getW ce w)
      currentYearCount := (weekTxs getW ce w).length
      currentYearTransactions := sortTxByDate (weekTxs getW ce w)
      previousYearTotal := jround (weekTotal getW pe w)
      previousYearCount := (weekTxs getW pe w).length
      previousYearTransactions := sortTxByDate (weekTxs getW pe w) })

/-- Source `totalWeeksForAvg` (also exposed as `totalWeeksInView`). -/
def totalWeeksForAvgOf (m : Option Nat) : Nat :=
  match truthyMonth m with
  | some _ => 5
  | none => 52

/-- Output `currentDayNum` field: the marker is exposed only when viewing the
present year and, in month view, the present month (`month == null ||
isCurrentMonth` uses null-ness, not truthiness). -/
def currentDayNumOutOf (m : Option Nat) (currentYear : Nat) (now : Ymd) : Option Nat :=
  if isCurrentYearOf currentYear now = true ∧ (m = none ∨ isCurrentMonthOf m now = true) then
    some (currentDayNumOf m currentYear now)
  else none

/-- Engine core on the two pre-exclusion expense lists (everything after the
`filterExpenses` step of the source). -/
def summarizeExpenses (cePre pePre : List Transaction) (currentYear previousYear : Nat)
    (month : Option Nat) (excludeCategoryNames : Option (List String)) (now : Ymd) :
    SpendSummary :=
  let allNames := allCategoryNamesOf cePre pePre
  let ce := exclusionFilter excludeCategoryNames cePre
  let pe := exclusionFilter excludeCategoryNames pePre
  let getW := getWeekFn month
  let cwn := currentWeekNumOf month currentYear now
  let icy := isCurrentYearOf currentYear now
  let maxDays := maxDaysOf month currentYear
  let cdn := currentDayNumOf month currentYear now
  let totalDays := totalDaysInViewOf month currentYear
  let daily := accumDaily (getDayFn month currentYear) maxDays ce
  let pdaily := accumDaily (getDayFn month previousYear) maxDays pe
  let dailyByCat := accumDailyByCat (getDayFn month currentYear) maxDays ce
  let pdailyByCat := accumDailyByCat (getDayFn month previousYear) maxDays pe
  let ccs := accumCategorySpend ce
  let pcs := accumCategorySpend pe
  let tCY : ℤ :=
    jround (if icy = true then totalCurrentYearValueOf daily cdn icy totalDays
            else cumHold daily cdn icy totalDays)
  let tPY : ℤ := jround (cumPlain pdaily totalDays)
  let twfa := totalWeeksForAvgOf month
  { totalCurrentYear := tCY
    totalPreviousYear := tPY
    difference := tCY - tPY
    percentChange :=
      if 0 < tPY then some (((tCY : ℚ) - (tPY : ℚ)) / (tPY : ℚ) * 100) else none
    dailyData := dailyDataOf month currentYear cdn icy daily pdaily dailyByCat pdailyByCat totalDays
    topCategories := topCategoriesOf ccs pcs
    allCategoryNames := allNames
    currentWeek := cwn
    totalWeeksInView := twfa
    currentYearWeeklyAvg := jround (if 0 < cwn then (tCY : ℚ) / (cwn : ℚ) else 0)
    previousYearWeeklyAvg := jround (if 0 < twfa then (tPY : ℚ) / (twfa : ℚ) else 0)
    month := month
    totalDaysInView := totalDays
    weeklyData := weeklyDataOf getW ce pe
    categoryTotals := categoryTotalsOf cePre allNames
    categoryTotalsPreviousYear := categoryTotalsOf pePre allNames
    currentDayNum := currentDayNumOutOf month currentYear now }

/-- Source `processTransactions`: month restriction, expense filter, then the
aggregation core. -/
def processTransactions (currentYearTx previousYearTx : List Transaction)
    (currentYear previousYear : Nat) (month : Option Nat)
    (excludeCategoryNames : Option (List String)) (now : Ymd) : SpendSummary :=
  summarizeExpenses
    (filterExpenses (monthRestrict currentYearTx currentYear month))
    (filterExpenses (monthRestrict previousYearTx previousYear month))
    currentYear previousYear month excludeCategoryNames now

/-- Number of days in month `m` of Gregorian year `y`, written from the
claim's wording (days of the selected month; leap rule "(divisible by 4 and
not by 100) or divisible by 400") independently of the engine's
`daysInMonthJS`, for comparison. -/
def gregorianMonthDays (y m : Nat) : Nat :=
  if m = 2 then (if (y % 4 = 0 ∧ ¬y % 100 = 0) ∨ y % 400 = 0 then 29 else 28)
  else if m = 4 ∨ m = 6 ∨ m = 9 ∨ m = 11 then 30 else 31

/-- Fixed clock value for concrete runs (a date outside the compared years). -/
def now0 : Ymd := ⟨2025, 6, 1⟩

/-- Concrete expense: 50 spent on Food on 2024-01-03 (the spec's worked
example). -/
def txFood : Transaction :=
  { id := 1, date := ⟨2024, 1, 3⟩, amount := some (-50), currency := "USD", to_base := none,
    payee := "Grocer", category_name := some ("Food"), category_group_name := none,
    is_income := false, exclude_from_totals := false }

/-- Concrete transaction whose amount string is "-0": `parseFloat` yields `-0`
and `-0 < 0` is false. -/
def txZero : Transaction :=
  { id := 2, date := ⟨2024, 1, 3⟩, amount := some 0, currency := "USD", to_base := none,
    payee := "Ghost", category_name := some ("Food"), category_group_name := none,
    is_income := false, exclude_from_totals := false }

/-- Concrete previous-period expense of 0.3 currency units (rounds to 0). -/
def txSmall : Transaction :=
  { id := 3, date := ⟨2023, 2, 1⟩, amount := some (-3 / 10), currency := "USD", to_base := none,
    payee := "Snack", category_name := some ("Food"), category_group_name := none,
    is_income := false, exclude_from_totals := false }

/-- Concrete expense on 2024-01-20, after the current-day marker of the run
that uses `now = 2024-01-10`. -/
def txLate : Transaction :=
  { id := 4, date := ⟨2024, 1, 20⟩, amount := some (-100), currency := "USD", to_base := none,
    payee := "Future", category_name := some ("Food"), category_group_name := none,
    is_income := false, exclude_from_totals := false }

/-- Concrete current-period expense dated in 2023, i.e. outside the current
period's calendar year 2024. -/
def txWrongYear : Transaction :=
  { id := 5, date := ⟨2023, 5, 1⟩, amount := some (-40), currency := "USD", to_base := none,
    payee := "Stray", category_name := some ("Food"), category_group_name := none,
    is_income := false, exclude_from_totals := false }

/-- The top-category entry produced by the worked example. -/
def csFood : CategorySpend := ⟨"Food", 50, 0, 50, none⟩

/-- The post-exclusion expense list of one period, as the engine derives it
from that period's raw transaction list. -/
def expensesOf (tx : List Transaction) (year : Nat) (mo : Option Nat)
    (e : Option (List String)) : List Transaction :=
  exclusionFilter e (filterExpenses (monthRestrict tx year mo))

/-! ## Basic lemmas about the numeric and record helpers -/

theorem jround_mono {q r : ℚ} (h : q ≤ r) : jround q ≤ jround r :=
  Int.floor_mono (by linarith)

theorem jround_nonneg {q : ℚ} (h : 0 ≤ q) : 0 ≤ jround q :=
  Int.le_floor.mpr (by push_cast; linarith)

theorem abs_jround_sub (q : ℚ) : |(jround q : ℚ) - q| ≤ 1 / 2 := by
  have h1 : ((⌊q + 1 / 2⌋ : ℤ) : ℚ) ≤ q + 1 / 2 := Int.floor_le _
  have h2 : q + 1 / 2 < ((⌊q + 1 / 2⌋ : ℤ) : ℚ) + 1 := Int.lt_floor_add_one _
  rw [jround, abs_le]
  constructor <;> linarith

theorem absParse_nonneg (a : Option ℚ) : 0 ≤ absParse a := by
  cases a with
  | none => simp [absParse]
  | some q => exact abs_nonneg q

theorem absParse_pos_of_parseLt0 {a : Option ℚ} (h : parseLt0 a = true) : 0 < absParse a := by
  cases a with
  | none => simp [parseLt0] at h
  | some q =>
    simp only [parseLt0, decide_eq_true_eq] at h
    simpa [absParse] using abs_pos.mpr (ne_of_lt h)

theorem lookupD_bump_self (l : List (String × ℚ)) (k : String) (v : ℚ) :
    lookupD (bump l k v) k = lookupD l k + v := by
  induction l with
  | nil => simp [bump, lookupD]
  | cons p rest ih =>
    obtain ⟨k₀, v₀⟩ := p
    by_cases h : k₀ = k
    · simp [bump, lookupD, h]
    · simp [bump, lookupD, h, ih]


theorem lookupD_bump_ne (l : List (String × ℚ)) {k k' : String} (h : k' ≠ k) (v : ℚ) :
    lookupD (bump l k v) k' = lookupD l k' := by
  induction l with
  | nil => simp [bump, lookupD, Ne.symm h]
  | cons p rest ih =>
    obtain ⟨k₀, v₀⟩ := p
    by_cases h₀ : k₀ = k
    · subst h₀
      simp [bump, lookupD, Ne.symm h]
    · simp [bump, lookupD, h₀, ih]

theorem mem_map_fst_bump {l : List (String × ℚ)} {k k' : String} {v : ℚ} :
    k' ∈ (bump l k v).map Prod.fst ↔ k' ∈ l.map Prod.fst ∨ k' = k := by
  induction l with
  | nil => simp [bump]
  | cons p rest ih =>
    obtain ⟨k₀, v₀⟩ := p
    by_cases h : k₀ = k
    · subst h
      simp only [bump, beq_self_eq_true, if_pos, List.map_cons, List.mem_cons]
      tauto
    · simp only [bump, beq_iff_eq, if_neg h, List.map_cons, List.mem_cons, ih]
      tauto

theorem bump_values_pos {l : List (String × ℚ)} {k : String} {v : ℚ}
    (hl : ∀ p ∈ l, 0 < p.2) (hv : 0 < v) : ∀ p ∈ bump l k v, 0 < p.2 := by
  induction l with
  | nil =>
    intro p hp
    simp only [bump, List.mem_singleton] at hp
    simpa [hp] using hv
  | cons p₀ rest ih =>
    obtain ⟨k₀, v₀⟩ := p₀
    intro p hp
    by_cases h : k₀ = k
    · subst h
      simp only [bump, beq_self_eq_true, if_pos, List.mem_cons] at hp
      rcases hp with h1 | h1
      · have hv₀ := hl (k₀, v₀) (by simp)
        subst h1
        simp only at hv₀ ⊢
        linarith
      · exact hl p (List.mem_cons_of_mem _ h1)
    · simp only [bump, beq_iff_eq, if_neg h, List.mem_cons] at hp
      rcases hp with h1 | h1
      · subst h1
        exact hl (k₀, v₀) (by simp)
      · exact ih (fun q hq => hl q (List.mem_cons_of_mem _ hq)) p h1

theorem lookupD_pos {l : List (String × ℚ)} {k : String}
    (hl : ∀ p ∈ l, 0 < p.2) (hk : k ∈ l.map Prod.fst) : 0 < lookupD l k := by
  induction l with
  | nil => simp at hk
  | cons p rest ih =>
    obtain ⟨k₀, v₀⟩ := p
    by_cases h : k₀ = k
    · have := hl (k₀, v₀) (by simp)
      simpa [lookupD, h] using this
    · have hk' : k ∈ rest.map Prod.fst := by
        simp only [List.map_cons, List.mem_cons] at hk
        rcases hk with h1 | h1
        · exact absurd h1.symm h
        · exact h1
      simpa [lookupD, h] using ih (fun q hq => hl q (List.mem_cons_of_mem _ hq)) hk'

theorem lookupD_nonneg {l : List (String × ℚ)} (hl : ∀ p ∈ l, 0 ≤ p.2) (k : String) :
    0 ≤ lookupD l k := by
  induction l with
  | nil => simp [lookupD]
  | cons p rest ih =>
    obtain ⟨k₀, v₀⟩ := p
    by_cases h : k₀ = k
    · have := hl (k₀, v₀) (by simp)
      simpa [lookupD, h] using this
    · simpa [lookupD, h] using ih (fun q hq => hl q (List.mem_cons_of_mem _ hq))

theorem mem_dedupKFAux [DecidableEq α] {a : α} :
    ∀ (l seen : List α), a ∈ dedupKFAux seen l ↔ a ∈ l ∧ a ∉ seen := by
  intro l
  induction l with
  | nil => intro seen; simp [dedupKFAux]
  | cons b rest ih =>
    intro seen
    by_cases hb : b ∈ seen
    · simp only [dedupKFAux, if_pos hb, ih, List.mem_cons]
      constructor
      · rintro ⟨h1, h2⟩
        exact ⟨Or.inr h1, h2⟩
      · rintro ⟨h1 | h1, h2⟩
        · exact absurd (h1 ▸ hb) h2
        · exact ⟨h1, h2⟩
    · simp only [dedupKFAux, if_neg hb, List.mem_cons, ih]
      by_cases hab : a = b
      · subst hab
        simp [hb]
      · simp [hab]

theorem mem_dedupKF [DecidableEq α] {a : α} {l : List α} : a ∈ dedupKF l ↔ a ∈ l := by
  simp [dedupKF, mem_dedupKFAux]

theorem nodup_dedupKFAux [DecidableEq α] : ∀ (l seen : List α), (dedupKFAux seen l).Nodup := by
  intro l
  induction l with
  | nil => intro seen; simp [dedupKFAux]
  | cons b rest ih =>
    intro seen
    by_cases hb : b ∈ seen
    · simpa only [dedupKFAux, if_pos hb] using ih seen
    · simp only [dedupKFAux, if_neg hb, List.nodup_cons]
      refine ⟨fun hmem => ?_, ih (b :: seen)⟩
      exact ((mem_dedupKFAux rest (b :: seen)).mp hmem).2 (List.mem_cons_self b seen)

theorem nodup_dedupKF [DecidableEq α] (l : List α) : (dedupKF l).Nodup :=
  nodup_dedupKFAux l []

theorem accumCategorySpend_concat (l : List Transaction) (t : Transaction) :
    accumCategorySpend (l ++ [t]) =
      bump (accumCategorySpend l) (normCat t.category_name) (absParse t.amount) := by
  simp [accumCategorySpend, List.foldl_append]

theorem foldl_bump_values_pos :
    ∀ (l : List Transaction) (acc : List (String × ℚ)),
      (∀ p ∈ acc, 0 < p.2) → (∀ t ∈ l, 0 < absParse t.amount) →
      ∀ p ∈ l.foldl (fun acc t => bump acc (normCat t.category_name) (absParse t.amount)) acc,
        0 < p.2 := by
  intro l
  induction l with
  | nil => intro acc hacc _; simpa using hacc
  | cons t rest ih =>
    intro acc hacc hl
    simp only [List.foldl_cons]
    exact ih _ (bump_values_pos hacc (hl t (by simp))) (fun s hs => hl s (List.mem_cons_of_mem _ hs))

theorem accumCategorySpend_values_pos {l : List Transaction}
    (hl : ∀ t ∈ l, 0 < absParse t.amount) : ∀ p ∈ accumCategorySpend l, 0 < p.2 :=
  foldl_bump_values_pos l [] (by simp) hl

theorem foldl_bump_mem_keys :
    ∀ (l : List Transaction) (acc : List (String × ℚ)) (k : String),
      (k ∈ (l.foldl (fun acc t => bump acc (normCat t.category_name) (absParse t.amount)) acc).map
          Prod.fst) ↔
        k ∈ acc.map Prod.fst ∨ ∃ t ∈ l, normCat t.category_name = k := by
  intro l
  induction l with
  | nil => intro acc k; simp
  | cons t rest ih =>
    intro acc k
    simp only [List.foldl_cons, ih, mem_map_fst_bump, List.mem_cons]
    constructor
    · rintro (⟨h | h⟩ | ⟨s, hs, hk⟩)
      · exact Or.inl h
      · exact Or.inr ⟨t, Or.inl rfl, h.symm⟩
      · exact Or.inr ⟨s, Or.inr hs, hk⟩
    · rintro (h | ⟨s, hs | hs, hk⟩)
      · exact Or.inl (Or.inl h)
      · exact Or.inl (Or.inr (hs ▸ hk.symm))
      · exact Or.inr ⟨s, hs, hk⟩

theorem mem_keys_accumCategorySpend {l : List Transaction} {k : String} :
    k ∈ (accumCategorySpend l).map Prod.fst ↔ ∃ t ∈ l, normCat t.category_name = k := by
  simpa [accumCategorySpend] using foldl_bump_mem_keys l [] k

theorem ymdLe_trans : ∀ (a b c : Ymd), ymdLe a b → ymdLe b c → ymdLe a c := by
  intro a b c hab hbc
  simp only [ymdLe, Bool.or_eq_true, Bool.and_eq_true, decide_eq_true_eq, beq_iff_eq] at *
  omega

theorem ymdLe_total : ∀ (a b : Ymd), ymdLe a b || ymdLe b a := by
  intro a b
  simp only [ymdLe, Bool.or_eq_true, Bool.and_eq_true, decide_eq_true_eq, beq_iff_eq]
  omega

theorem natLeB_trans : ∀ (a b c : Nat), (fun a b => decide (a ≤ b)) a b →
    (fun a b => decide (a ≤ b)) b c → (fun a b => decide (a ≤ b)) a c := by
  intro a b c hab hbc
  simp only [decide_eq_true_eq] at *
  omega

theorem natLeB_total : ∀ (a b : Nat), (fun a b => decide (a ≤ b)) a b ||
    (fun a b => decide (a ≤ b)) b a := by
  intro a b
  simp only [Bool.or_eq_true, decide_eq_true_eq]
  omega

theorem csLe_trans : ∀ (a b c : CategorySpend), csLe a b → csLe b c → csLe a c := by
  intro a b c hab hbc
  simp only [csLe, decide_eq_true_eq] at *
  omega

theorem csLe_total : ∀ (a b : CategorySpend), csLe a b || csLe b a := by
  intro a b
  simp only [csLe, Bool.or_eq_true, decide_eq_true_eq]
  omega

theorem cumPlain_succ (f : Nat → ℚ) (n : Nat) :
    cumPlain f (n + 1) = cumPlain f n + f (n + 1) := rfl

theorem cumHold_succ (f : Nat → ℚ) (cdn : Nat) (icy : Bool) (n : Nat) :
    cumHold f cdn icy (n + 1) =
      cumHold f cdn icy n + (if n + 1 ≤ cdn ∨ icy = false then f (n + 1) else 0) := rfl

theorem cumHold_false (f : Nat → ℚ) (cdn : Nat) : ∀ n, cumHold f cdn false n = cumPlain f n := by
  intro n
  induction n with
  | zero => rfl
  | succ n ih => simp [cumHold_succ, cumPlain_succ, ih]

theorem cumHold_true (f : Nat → ℚ) (cdn : Nat) : ∀ n, cumHold f cdn true n = cumPlain f (min cdn n) := by
  intro n
  induction n with
  | zero => simp [cumHold, cumPlain]
  | succ n ih =>
    by_cases h : n + 1 ≤ cdn
    · have h1 : min cdn (n + 1) = n + 1 := by omega
      have h2 : min cdn n = n := by omega
      rw [cumHold_succ, ih, h1, h2, cumPlain_succ]
      simp [h]
    · have h1 : min cdn (n + 1) = min cdn n := by omega
      rw [cumHold_succ, ih, h1]
      simp [h]

theorem cumPlain_step_le (f : Nat → ℚ) (hf : ∀ d, 0 ≤ f d) (n : Nat) :
    cumPlain f n ≤ cumPlain f (n + 1) := by
  have := hf (n + 1)
  rw [cumPlain_succ]
  linarith

theorem cumHold_step_le (f : Nat → ℚ) (hf : ∀ d, 0 ≤ f d) (cdn : Nat) (icy : Bool) (n : Nat) :
    cumHold f cdn icy n ≤ cumHold f cdn icy (n + 1) := by
  rw [cumHold_succ]
  split
  · have := hf (n + 1)
    linarith
  · linarith

theorem cumPlain_nonneg (f : Nat → ℚ) (hf : ∀ d, 0 ≤ f d) : ∀ n, 0 ≤ cumPlain f n := by
  intro n
  induction n with
  | zero => simp [cumPlain]
  | succ n ih =>
    have := hf (n + 1)
    rw [cumPlain_succ]
    linarith

theorem bumpFun_nonneg {acc : Nat → ℚ} (hacc : ∀ d, 0 ≤ acc d) {v : ℚ} (hv : 0 ≤ v)
    (k d : Nat) : 0 ≤ bumpFun acc k v d := by
  simp only [bumpFun]
  split
  · have := hacc d
    linarith
  · exact hacc d

theorem foldl_bumpFun_nonneg (g : Ymd → Nat) (maxDays : Nat) :
    ∀ (l : List Transaction) (acc : Nat → ℚ), (∀ d, 0 ≤ acc d) →
      ∀ d, 0 ≤ (l.foldl
        (fun acc t =>
          let day := g t.date
          if 1 ≤ day ∧ day ≤ maxDays then bumpFun acc day (absParse t.amount) else acc)
        acc) d := by
  intro l
  induction l with
  | nil => intro acc hacc d; simpa using hacc d
  | cons t rest ih =>
    intro acc hacc d
    simp only [List.foldl_cons]
    apply ih
    intro d'
    show 0 ≤ (if 1 ≤ g t.date ∧ g t.date ≤ maxDays then
      bumpFun acc (g t.date) (absParse t.amount) else acc) d'
    split
    · exact bumpFun_nonneg hacc (absParse_nonneg t.amount) _ d'
    · exact hacc d'

theorem accumDaily_nonneg (g : Ymd → Nat) (maxDays : Nat) (l : List Transaction) :
    ∀ d, 0 ≤ accumDaily g maxDays l d :=
  foldl_bumpFun_nonneg g maxDays l (fun _ => 0) (fun _ => le_refl 0)

theorem filterExpenses_append (l₁ l₂ : List Transaction) :
    filterExpenses (l₁ ++ l₂) = filterExpenses l₁ ++ filterExpenses l₂ :=
  List.filter_append _ _

theorem filterByMonth_append (l₁ l₂ : List Transaction) (y m : Nat) :
    filterByMonth (l₁ ++ l₂) y m = filterByMonth l₁ y m ++ filterByMonth l₂ y m :=
  List.filter_append _ _

theorem monthRestrict_append (l₁ l₂ : List Transaction) (y : Nat) (m : Option Nat) :
    monthRestrict (l₁ ++ l₂) y m = monthRestrict l₁ y m ++ monthRestrict l₂ y m := by
  unfold monthRestrict
  cases truthyMonth m with
  | none => rfl
  | some mo => exact filterByMonth_append l₁ l₂ y mo

theorem filterExpenses_singleton_none {t : Transaction} (h : parseLt0 t.amount = false) :
    filterExpenses [t] = [] := by
  simp [filterExpenses, h]

theorem mem_filterExpenses {t : Transaction} {l : List Transaction} (h : t ∈ filterExpenses l) :
    t ∈ l ∧ t.is_income = false ∧ t.exclude_from_totals = false ∧ parseLt0 t.amount = true := by
  have := List.mem_filter.mp h
  obtain ⟨h1, h2⟩ := this
  simp only [Bool.and_eq_true, Bool.not_eq_true'] at h2
  exact ⟨h1, h2.1.1, h2.1.2, h2.2⟩

theorem exclusionFilter_append (e : Option (List String)) (l₁ l₂ : List Transaction) :
    exclusionFilter e (l₁ ++ l₂) = exclusionFilter e l₁ ++ exclusionFilter e l₂ := by
  cases e with
  | none => rfl
  | some names =>
    simp only [exclusionFilter]
    by_cases hc : (names.length != 0) = true
    · simp only [if_pos hc]
      exact List.filter_append _ _
    · simp only [if_neg hc]

theorem mem_exclusionFilter {e : Option (List String)} {t : Transaction} {l : List Transaction}
    (h : t ∈ exclusionFilter e l) : t ∈ l := by
  cases e with
  | none => exact h
  | some names =>
    simp only [exclusionFilter] at h
    by_cases hc : (names.length != 0) = true
    · rw [if_pos hc] at h
      exact (List.mem_filter.mp h).1
    · rw [if_neg hc] at h
      exact h

theorem monthLength_ge (leap : Bool) (m : Nat) : 28 ≤ monthLength leap m := by
  unfold monthLength
  split
  · split <;> omega
  all_goals omega

theorem totalDaysInView_pos (m : Option Nat) (cy : Nat) : 1 ≤ totalDaysInViewOf m cy := by
  unfold totalDaysInViewOf maxDaysOf
  cases truthyMonth m with
  | some mo =>
    have h := monthLength_ge (isLeapYear (cy + (mo - 1) / 12)) ((mo - 1) % 12 + 1)
    show 1 ≤ monthLength (isLeapYear (cy + (mo - 1) / 12)) ((mo - 1) % 12 + 1)
    omega
  | none =>
    show 1 ≤ if isLeapYear cy then 366 else 365
    split <;> omega

theorem range_filter_le (k : Nat) : ∀ D : Nat,
    (List.range D).filter (fun i => decide (i + 1 ≤ k)) = List.range (min k D) := by
  intro D
  induction D with
  | zero => simp
  | succ D ih =>
    rw [List.range_succ, List.filter_append, ih]
    by_cases h : D + 1 ≤ k
    · have h1 : min k (D + 1) = D + 1 := by omega
      have h2 : min k D = D := by omega
      simp [h, h1, h2, List.range_succ]
    · have h1 : min k (D + 1) = min k D := by omega
      simp [h, h1]

theorem sum_map_range_succ {α : Type} [AddCommMonoid α] (f : Nat → α) (n : Nat) :
    ((List.range (n + 1)).map f).sum = ((List.range n).map f).sum + f n := by
  simp [List.range_succ]

theorem abs_sum_jround_sub_cumPlain (g : Nat → ℚ) :
    ∀ k : Nat,
      |(((List.range k).map (fun i => ((jround (g (i + 1)) : ℤ) : ℚ))).sum) - cumPlain g k| ≤
        (k : ℚ) / 2 := by
  intro k
  induction k with
  | zero => simp [cumPlain]
  | succ k ih =>
    rw [sum_map_range_succ, cumPlain_succ]
    have h1 := abs_jround_sub (g (k + 1))
    have htri :
        |(((List.range k).map (fun i => ((jround (g (i + 1)) : ℤ) : ℚ))).sum +
            ((jround (g (k + 1)) : ℤ) : ℚ)) - (cumPlain g k + g (k + 1))| ≤
          |(((List.range k).map (fun i => ((jround (g (i + 1)) : ℤ) : ℚ))).sum) - cumPlain g k| +
            |((jround (g (k + 1)) : ℤ) : ℚ) - g (k + 1)| := by
      have := abs_add
        ((((List.range k).map (fun i => ((jround (g (i + 1)) : ℤ) : ℚ))).sum) - cumPlain g k)
        (((jround (g (k + 1)) : ℤ) : ℚ) - g (k + 1))
      calc |(((List.range k).map (fun i => ((jround (g (i + 1)) : ℤ) : ℚ))).sum +
            ((jround (g (k + 1)) : ℤ) : ℚ)) - (cumPlain g k + g (k + 1))| =
          |((((List.range k).map (fun i => ((jround (g (i + 1)) : ℤ) : ℚ))).sum - cumPlain g k) +
            (((jround (g (k + 1)) : ℤ) : ℚ) - g (k + 1)))| := by congr 1; ring
        _ ≤ _ := this
    have hk : ((k : ℚ) + 1) / 2 = (k : ℚ) / 2 + 1 / 2 := by ring
    push_cast
    rw [hk]
    push_cast at htri ih ⊢
    linarith

theorem sum_jround_close (g : Nat → ℚ) (k D : Nat) (hk : k ≤ D) (hD : 1 ≤ D) :
    |((List.range k).map (fun i => jround (g (i + 1)))).sum - jround (cumPlain g k)| ≤ (D : ℤ) := by
  have hq1 := abs_sum_jround_sub_cumPlain g k
  have hq2 := abs_jround_sub (cumPlain g k)
  have hcast :
      ((((List.range k).map (fun i => jround (g (i + 1)))).sum : ℤ) : ℚ) =
        (((List.range k).map (fun i => ((jround (g (i + 1)) : ℤ) : ℚ))).sum) := by
    rw [Int.cast_list_sum, List.map_map]
    rfl
  have hmain :
      |((((List.range k).map (fun i => jround (g (i + 1)))).sum : ℤ) : ℚ) -
          ((jround (cumPlain g k) : ℤ) : ℚ)| ≤ (D : ℚ) := by
    rw [hcast]
    have hkD : (k : ℚ) ≤ (D : ℚ) := by exact_mod_cast hk
    have hD1 : (1 : ℚ) ≤ (D : ℚ) := by exact_mod_cast hD
    have habs : |((jround (cumPlain g k) : ℤ) : ℚ) - cumPlain g k| ≤ 1 / 2 := hq2
    have h3 :
        |(((List.range k).map (fun i => ((jround (g (i + 1)) : ℤ) : ℚ))).sum) -
            ((jround (cumPlain g k) : ℤ) : ℚ)| ≤
          |(((List.range k).map (fun i => ((jround (g (i + 1)) : ℤ) : ℚ))).sum) - cumPlain g k| +
            |cumPlain g k - ((jround (cumPlain g k) : ℤ) : ℚ)| := by
      have := abs_add
        ((((List.range k).map (fun i => ((jround (g (i + 1)) : ℤ) : ℚ))).sum) - cumPlain g k)
        (cumPlain g k - ((jround (cumPlain g k) : ℤ) : ℚ))
      calc |(((List.range k).map (fun i => ((jround (g (i + 1)) : ℤ) : ℚ))).sum) -
            ((jround (cumPlain g k) : ℤ) : ℚ)| =
          |((((List.range k).map (fun i => ((jround (g (i + 1)) : ℤ) : ℚ))).sum - cumPlain g k) +
            (cumPlain g k - ((jround (cumPlain g k) : ℤ) : ℚ)))| := by congr 1; ring
        _ ≤ _ := this
    have h4 : |cumPlain g k - ((jround (cumPlain g k) : ℤ) : ℚ)| ≤ 1 / 2 := by
      rwa [abs_sub_comm]
    linarith
  have := hmain
  rw [show ((((List.range k).map (fun i => jround (g (i + 1)))).sum : ℤ) : ℚ) -
        ((jround (cumPlain g k) : ℤ) : ℚ) =
      ((((List.range k).map (fun i => jround (g (i + 1)))).sum - jround (cumPlain g k) : ℤ) : ℚ) by
    push_cast; ring] at this
  rw [← Int.cast_abs] at this
  exact_mod_cast this

/-! ## Claim theorems -/

/-- C9 counterexample: with identical transaction lists, years, month and
exclusion arguments, two runs of the engine made at different wall-clock dates
(the clock read `new Date()` inside the function, here the explicit `now`
argument) produce different outputs — `currentWeek` is 1 when run on
2024-01-01 but 5 when run on 2023-01-01. The output therefore depends on more
than the listed inputs. -/
theorem c9_counterexample :
    (processTransactions [] [] 2024 2023 (some 1) none ⟨2024, 1, 1⟩).currentWeek ≠
      (processTransactions [] [] 2024 2023 (some 1) none ⟨2023, 1, 1⟩).currentWeek := by
  decide

/-- C9 (amended): two runs of `processTransactions` on identical inputs and
the same wall-clock date yield identical outputs; the result is a pure
function of the transaction lists, years, month, exclusion list, and the
clock value read during the run. -/
theorem c9_determinism (ctx ptx ctx' ptx' : List Transaction) (cy py cy' py' : Nat)
    (m m' : Option Nat) (e e' : Option (List String)) (now now' : Ymd)
    (h1 : ctx = ctx') (h2 : ptx = ptx') (h3 : cy = cy') (h4 : py = py') (h5 : m = m')
    (h6 : e = e') (h7 : now = now') :
    processTransactions ctx ptx cy py m e now = processTransactions ctx' ptx' cy' py' m' e' now' := by
  subst h1 h2 h3 h4 h5 h6 h7
  rfl

/-- C9 witness: the amended determinism theorem applied at a concrete input. -/
theorem c9_witness :
    processTransactions [txFood] [] 2024 2023 none none now0 =
      processTransactions [txFood] [] 2024 2023 none none now0 :=
  c9_determinism [txFood] [] [txFood] [] 2024 2023 2024 2023 none none none none now0 now0
    rfl rfl rfl rfl rfl rfl rfl

/-- C1 counterexample: the transaction `txZero` has amount string "-0", which
parses to `-0`; `parseFloat(amount) < 0` is false, so the expense filter drops
it entirely. Contrary to the claim, it is NOT counted in weekly transaction
counts and does NOT appear in any weekly line-item list: the weekly table is
empty. -/
theorem c1_counterexample :
    (processTransactions [txZero] [] 2024 2023 (some 1) none now0).weeklyData = [] ∧
    (processTransactions [txZero] [] 2024 2023 (some 1) none now0).totalCurrentYear = 0 := by
  constructor <;> with_unfolding_all rfl

/-- C1 (amended): a transaction whose parsed amount is not strictly negative
(amount "-0", an amount that fails numeric parsing, or any non-negative
amount) is removed by the expense filter before every aggregation step, so
adding it to either period's input leaves the entire output unchanged: it
contributes 0 to all sums AND is also absent from the weekly transaction
counts and line-item lists (it is silently dropped everywhere, not kept in the
lists). -/
theorem c1_nonexpense_noop (ctx ptx : List Transaction) (cy py : Nat) (m : Option Nat)
    (e : Option (List String)) (now : Ymd) (t : Transaction)
    (h : parseLt0 t.amount = false) :
    processTransactions (ctx ++ [t]) ptx cy py m e now =
        processTransactions ctx ptx cy py m e now ∧
      processTransactions ctx (ptx ++ [t]) cy py m e now =
        processTransactions ctx ptx cy py m e now := by
  have key : ∀ (l : List Transaction) (y : Nat),
      filterExpenses (monthRestrict (l ++ [t]) y m) = filterExpenses (monthRestrict l y m) := by
    intro l y
    rw [monthRestrict_append, filterExpenses_append]
    have h1 : filterExpenses (monthRestrict [t] y m) = [] := by
      unfold monthRestrict
      cases truthyMonth m with
      | none => exact filterExpenses_singleton_none h
      | some mo =>
        show filterExpenses (filterByMonth [t] y mo) = []
        by_cases hc : (t.date.year == y && t.date.month == mo) = true
        · have : filterByMonth [t] y mo = [t] := by
            simp [filterByMonth, hc]
          rw [this, filterExpenses_singleton_none h]
        · have : filterByMonth [t] y mo = [] := by
            simp only [filterByMonth, List.filter, hc]
          rw [this]
          rfl
    rw [h1, List.append_nil]
  constructor
  · unfold processTransactions
    rw [key ctx cy]
  · unfold processTransactions
    rw [key ptx py]

/-- C1 witness: the amended theorem applied to the "-0" transaction. -/
theorem c1_witness :
    parseLt0 txZero.amount = false ∧
      processTransactions [txZero] [] 2024 2023 none none now0 =
        processTransactions [] [] 2024 2023 none none now0 :=
  ⟨rfl, (c1_nonexpense_noop [] [] 2024 2023 none none now0 txZero rfl).1⟩

/-- C2 (amended): category exclusion never changes `categoryTotals`,
`categoryTotalsPreviousYear`, `allCategoryNames` (all computed pre-exclusion),
nor `currentWeek`, `totalWeeksInView`, `month`, `totalDaysInView`,
`currentDayNum` (which ignore the transaction lists); besides
`totalCurrentYear`, `totalPreviousYear`, `dailyData`, `weeklyData` and
`topCategories`, the derived fields `difference`, `percentChange`,
`currentYearWeeklyAvg` and `previousYearWeeklyAvg` may also differ from the
no-exclusion run. -/
theorem c2_exclusion_frame (ctx ptx : List Transaction) (cy py : Nat) (m : Option Nat)
    (E : List String) (now : Ymd) :
    (processTransactions ctx ptx cy py m (some E) now).categoryTotals =
        (processTransactions ctx ptx cy py m none now).categoryTotals ∧
      (processTransactions ctx ptx cy py m (some E) now).categoryTotalsPreviousYear =
        (processTransactions ctx ptx cy py m none now).categoryTotalsPreviousYear ∧
      (processTransactions ctx ptx cy py m (some E) now).allCategoryNames =
        (processTransactions ctx ptx cy py m none now).allCategoryNames ∧
      (processTransactions ctx ptx cy py m (some E) now).currentWeek =
        (processTransactions ctx ptx cy py m none now).currentWeek ∧
      (processTransactions ctx ptx cy py m (some E) now).totalWeeksInView =
        (processTransactions ctx ptx cy py m none now).totalWeeksInView ∧
      (processTransactions ctx ptx cy py m (some E) now).month =
        (processTransactions ctx ptx cy py m none now).month ∧
      (processTransactions ctx ptx cy py m (some E) now).totalDaysInView =
        (processTransactions ctx ptx cy py m none now).totalDaysInView ∧
      (processTransactions ctx ptx cy py m (some E) now).currentDayNum =
        (processTransactions ctx ptx cy py m none now).currentDayNum :=
  ⟨rfl, rfl, rfl, rfl, rfl, rfl, rfl, rfl⟩

/-- C2 counterexample: excluding the category of the only expense changes the
`difference` field (0 instead of 50), a field outside the claim's list of
fields allowed to differ (`totalCurrentYear`, `totalPreviousYear`,
`dailyData`, `weeklyData`, `topCategories`). -/
theorem c2_counterexample :
    (processTransactions [txFood] [] 2024 2023 (some 1) (some ["Food"]) now0).difference ≠
      (processTransactions [txFood] [] 2024 2023 (some 1) none now0).difference := by
  with_unfolding_all decide

/-! ## Projection lemmas: each output field as its defining expression -/

theorem totalDaysInView_proj (ctx ptx : List Transaction) (cy py : Nat) (mo : Option Nat)
    (e : Option (List String)) (now : Ymd) :
    (processTransactions ctx ptx cy py mo e now).totalDaysInView = totalDaysInViewOf mo cy := rfl

theorem dailyData_proj (ctx ptx : List Transaction) (cy py : Nat) (mo : Option Nat)
    (e : Option (List String)) (now : Ymd) :
    (processTransactions ctx ptx cy py mo e now).dailyData =
      dailyDataOf mo cy (currentDayNumOf mo cy now) (isCurrentYearOf cy now)
        (accumDaily (getDayFn mo cy) (maxDaysOf mo cy) (expensesOf ctx cy mo e))
        (accumDaily (getDayFn mo py) (maxDaysOf mo cy) (expensesOf ptx py mo e))
        (accumDailyByCat (getDayFn mo cy) (maxDaysOf mo cy) (expensesOf ctx cy mo e))
        (accumDailyByCat (getDayFn mo py) (maxDaysOf mo cy) (expensesOf ptx py mo e))
        (totalDaysInViewOf mo cy) := rfl

theorem weeklyData_proj (ctx ptx : List Transaction) (cy py : Nat) (mo : Option Nat)
    (e : Option (List String)) (now : Ymd) :
    (processTransactions ctx ptx cy py mo e now).weeklyData =
      weeklyDataOf (getWeekFn mo) (expensesOf ctx cy mo e) (expensesOf ptx py mo e) := rfl

theorem topCategories_proj (ctx ptx : List Transaction) (cy py : Nat) (mo : Option Nat)
    (e : Option (List String)) (now : Ymd) :
    (processTransactions ctx ptx cy py mo e now).topCategories =
      topCategoriesOf (accumCategorySpend (expensesOf ctx cy mo e))
        (accumCategorySpend (expensesOf ptx py mo e)) := rfl

theorem totalPreviousYear_proj (ctx ptx : List Transaction) (cy py : Nat) (mo : Option Nat)
    (e : Option (List String)) (now : Ymd) :
    (processTransactions ctx ptx cy py mo e now).totalPreviousYear =
      jround (cumPlain (accumDaily (getDayFn mo py) (maxDaysOf mo cy) (expensesOf ptx py mo e))
        (totalDaysInViewOf mo cy)) := rfl

theorem percentChange_proj (ctx ptx : List Transaction) (cy py : Nat) (mo : Option Nat)
    (e : Option (List String)) (now : Ymd) :
    (processTransactions ctx ptx cy py mo e now).percentChange =
      (if 0 < (processTransactions ctx ptx cy py mo e now).totalPreviousYear then
        some ((((processTransactions ctx ptx cy py mo e now).totalCurrentYear : ℚ) -
            ((processTransactions ctx ptx cy py mo e now).totalPreviousYear : ℚ)) /
          ((processTransactions ctx ptx cy py mo e now).totalPreviousYear : ℚ) * 100)
      else none) := rfl

theorem totalCurrentYear_proj (ctx ptx : List Transaction) (cy py : Nat) (mo : Option Nat)
    (e : Option (List String)) (now : Ymd) :
    (processTransactions ctx ptx cy py mo e now).totalCurrentYear =
      jround (if isCurrentYearOf cy now = true then
          totalCurrentYearValueOf
            (accumDaily (getDayFn mo cy) (maxDaysOf mo cy) (expensesOf ctx cy mo e))
            (currentDayNumOf mo cy now) (isCurrentYearOf cy now) (totalDaysInViewOf mo cy)
        else
          cumHold (accumDaily (getDayFn mo cy) (maxDaysOf mo cy) (expensesOf ctx cy mo e))
            (currentDayNumOf mo cy now) (isCurrentYearOf cy now) (totalDaysInViewOf mo cy)) := rfl

/-! ## C6 support -/

theorem isLeapYear_iff (y : Nat) :
    isLeapYear y = true ↔ ((y % 4 = 0 ∧ ¬y % 100 = 0) ∨ y % 400 = 0) := by
  simp [isLeapYear]

theorem maxDaysOf_some {mval : Nat} (cy : Nat) (h : 1 ≤ mval) :
    maxDaysOf (some mval) cy = daysInMonthJS cy mval := by
  obtain ⟨k, rfl⟩ : ∃ k, mval = k + 1 := ⟨mval - 1, by omega⟩
  rfl

theorem daysInMonthJS_eq_gregorian (cy : Nat) :
    ∀ mval : Nat, 1 ≤ mval → mval ≤ 12 → daysInMonthJS cy mval = gregorianMonthDays cy mval := by
  have hfeb : daysInMonthJS cy 2 = gregorianMonthDays cy 2 := by
    show (if isLeapYear (cy + 0) then 29 else 28) = gregorianMonthDays cy 2
    rw [Nat.add_zero]
    by_cases hL : isLeapYear cy = true
    · rw [if_pos hL]
      simp [gregorianMonthDays, (isLeapYear_iff cy).mp hL]
    · rw [if_neg hL]
      have hnot : ¬((cy % 4 = 0 ∧ ¬cy % 100 = 0) ∨ cy % 400 = 0) :=
        fun hp => hL ((isLeapYear_iff cy).mpr hp)
      simp [gregorianMonthDays, hnot]
  intro mval h1 h2
  interval_cases mval
  · rfl
  · exact hfeb
  all_goals rfl

theorem dailyDataOf_map_day (mo : Option Nat) (cy cdn : Nat) (icy : Bool)
    (daily pdaily : Nat → ℚ) (dbc pdbc : Nat → List (String × ℚ)) (D : Nat) :
    (dailyDataOf mo cy cdn icy daily pdaily dbc pdbc D).map (fun en => en.day) =
      List.range' 1 D := by
  simp only [dailyDataOf, List.map_map]
  rw [List.range'_eq_map_range]
  exact List.map_congr_left (fun i _ => Nat.add_comm i 1)

/-- C6: `totalDaysInView` equals the day count of the selected month of yearA
when a month in 1..12 is supplied, and otherwise 366 or 365 by the Gregorian
leap-year rule on yearA; `dailyData` carries exactly one entry per day index
1..totalDaysInView, in order. -/
theorem c6_totalDaysInView (ctx ptx : List Transaction) (cy py : Nat) (mo : Option Nat)
    (e : Option (List String)) (now : Ymd) :
    (mo = none →
        (processTransactions ctx ptx cy py mo e now).totalDaysInView =
          if (cy % 4 = 0 ∧ ¬cy % 100 = 0) ∨ cy % 400 = 0 then 366 else 365) ∧
      (∀ mval : Nat, mo = some mval → 1 ≤ mval → mval ≤ 12 →
        (processTransactions ctx ptx cy py mo e now).totalDaysInView =
          gregorianMonthDays cy mval) ∧
      ((processTransactions ctx ptx cy py mo e now).dailyData.map (fun en => en.day) =
        List.range' 1 (processTransactions ctx ptx cy py mo e now).totalDaysInView) := by
  refine ⟨?_, ?_, ?_⟩
  · rintro rfl
    rw [totalDaysInView_proj]
    show (if isLeapYear cy then 366 else 365) = _
    by_cases hL : isLeapYear cy = true
    · rw [if_pos hL, if_pos ((isLeapYear_iff cy).mp hL)]
    · rw [if_neg hL, if_neg (fun hp => hL ((isLeapYear_iff cy).mpr hp))]
  · rintro mval rfl h1 h2
    rw [totalDaysInView_proj]
    show maxDaysOf (some mval) cy = _
    rw [maxDaysOf_some cy h1]
    exact daysInMonthJS_eq_gregorian cy mval h1 h2
  · rw [dailyData_proj, totalDaysInView_proj]
    exact dailyDataOf_map_day mo cy (currentDayNumOf mo cy now) (isCurrentYearOf cy now)
      (accumDaily (getDayFn mo cy) (maxDaysOf mo cy) (expensesOf ctx cy mo e))
      (accumDaily (getDayFn mo py) (maxDaysOf mo cy) (expensesOf ptx py mo e))
      (accumDailyByCat (getDayFn mo cy) (maxDaysOf mo cy) (expensesOf ctx cy mo e))
      (accumDailyByCat (getDayFn mo py) (maxDaysOf mo cy) (expensesOf ptx py mo e))
      (totalDaysInViewOf mo cy)

/-- C6 witness: February of the leap year 2024 gives a 29-day view. -/
theorem c6_witness :
    (processTransactions [] [] 2024 2023 (some 2) none now0).totalDaysInView = 29 := by
  have h := (c6_totalDaysInView [] [] 2024 2023 (some 2) none now0).2.1 2 rfl (by decide) (by decide)
  rw [h]
  with_unfolding_all rfl

theorem dailyDataOf_chain (mo : Option Nat) (cy cdn : Nat) (icy : Bool)
    (daily pdaily : Nat → ℚ) (dbc pdbc : Nat → List (String × ℚ)) (D : Nat)
    (hd : ∀ d, 0 ≤ daily d) (hp : ∀ d, 0 ≤ pdaily d) :
    List.Chain' (fun a b => a.currentYear ≤ b.currentYear ∧ a.previousYear ≤ b.previousYear)
      (dailyDataOf mo cy cdn icy daily pdaily dbc pdbc D) := by
  simp only [dailyDataOf]
  rw [List.chain'_map]
  cases D with
  | zero => simp
  | succ n =>
    rw [List.chain'_range_succ]
    intro m _
    constructor
    · exact jround_mono (cumHold_step_le daily hd cdn icy (m + 1))
    · exact jround_mono (cumPlain_step_le pdaily hp (m + 1))

/-- C3: in the `dailyData` sequence, both cumulative series are monotonically
non-decreasing: every consecutive pair of entries has
`currentYear` and `previousYear` values that do not decrease. -/
theorem c3_cumulative_monotone (ctx ptx : List Transaction) (cy py : Nat) (mo : Option Nat)
    (e : Option (List String)) (now : Ymd) :
    List.Chain' (fun a b => a.currentYear ≤ b.currentYear ∧ a.previousYear ≤ b.previousYear)
      (processTransactions ctx ptx cy py mo e now).dailyData := by
  rw [dailyData_proj]
  exact dailyDataOf_chain mo cy (currentDayNumOf mo cy now) (isCurrentYearOf cy now)
    (accumDaily (getDayFn mo cy) (maxDaysOf mo cy) (expensesOf ctx cy mo e))
    (accumDaily (getDayFn mo py) (maxDaysOf mo cy) (expensesOf ptx py mo e))
    (accumDailyByCat (getDayFn mo cy) (maxDaysOf mo cy) (expensesOf ctx cy mo e))
    (accumDailyByCat (getDayFn mo py) (maxDaysOf mo cy) (expensesOf ptx py mo e))
    (totalDaysInViewOf mo cy)
    (accumDaily_nonneg (getDayFn mo cy) (maxDaysOf mo cy) (expensesOf ctx cy mo e))
    (accumDaily_nonneg (getDayFn mo py) (maxDaysOf mo cy) (expensesOf ptx py mo e))

theorem bump_values_nonneg {l : List (String × ℚ)} {k : String} {v : ℚ}
    (hl : ∀ p ∈ l, 0 ≤ p.2) (hv : 0 ≤ v) : ∀ p ∈ bump l k v, 0 ≤ p.2 := by
  induction l with
  | nil =>
    intro p hp
    simp only [bump, List.mem_singleton] at hp
    simpa [hp] using hv
  | cons p₀ rest ih =>
    obtain ⟨k₀, v₀⟩ := p₀
    intro p hp
    by_cases h : k₀ = k
    · subst h
      simp only [bump, beq_self_eq_true, if_pos, List.mem_cons] at hp
      rcases hp with h1 | h1
      · have hv₀ := hl (k₀, v₀) (by simp)
        subst h1
        simp only at hv₀ ⊢
        linarith
      · exact hl p (List.mem_cons_of_mem _ h1)
    · simp only [bump, beq_iff_eq, if_neg h, List.mem_cons] at hp
      rcases hp with h1 | h1
      · subst h1
        exact hl (k₀, v₀) (by simp)
      · exact ih (fun q hq => hl q (List.mem_cons_of_mem _ hq)) p h1

theorem foldl_bump_values_nonneg :
    ∀ (l : List Transaction) (acc : List (String × ℚ)),
      (∀ p ∈ acc, 0 ≤ p.2) →
      ∀ p ∈ l.foldl (fun acc t => bump acc (normCat t.category_name) (absParse t.amount)) acc,
        0 ≤ p.2 := by
  intro l
  induction l with
  | nil => intro acc hacc; simpa using hacc
  | cons t rest ih =>
    intro acc hacc
    simp only [List.foldl_cons]
    exact ih _ (bump_values_nonneg hacc (absParse_nonneg t.amount))

theorem accumCategorySpend_values_nonneg (l : List Transaction) :
    ∀ p ∈ accumCategorySpend l, 0 ≤ p.2 :=
  foldl_bump_values_nonneg l [] (by simp)

theorem mem_topCategoriesOf {ccs pcs : List (String × ℚ)} {c : CategorySpend}
    (h : c ∈ topCategoriesOf ccs pcs) :
    c.percentChange = (if 0 < lookupD pcs c.name then
        some ((lookupD ccs c.name - lookupD pcs c.name) / lookupD pcs c.name * 100) else none) ∧
      c.previousYear = jround (lookupD pcs c.name) ∧
      c.currentYear = jround (lookupD ccs c.name) ∧
      (c.name ∈ ccs.map Prod.fst ∨ c.name ∈ pcs.map Prod.fst) := by
  simp only [topCategoriesOf] at h
  have h1 := List.mem_of_mem_take h
  rw [List.mem_mergeSort] at h1
  rcases List.mem_map.mp h1 with ⟨n, hn, rfl⟩
  refine ⟨rfl, rfl, rfl, ?_⟩
  have h2 := mem_dedupKF.mp hn
  simpa using h2

/-- C5 (amended): the top-level `percentChange` is null exactly when the
exposed (rounded) `totalPreviousYear` is 0; a `topCategories` entry's
`percentChange` is null exactly when that category's UN-rounded
previous-period spend is 0 — the entry's rounded `previousYear` field can be 0
(raw spend below half a unit) while its `percentChange` is numeric. -/
theorem c5_percentChange_null_iff (ctx ptx : List Transaction) (cy py : Nat) (mo : Option Nat)
    (e : Option (List String)) (now : Ymd) :
    ((processTransactions ctx ptx cy py mo e now).percentChange = none ↔
        (processTransactions ctx ptx cy py mo e now).totalPreviousYear = 0) ∧
      (∀ c ∈ (processTransactions ctx ptx cy py mo e now).topCategories,
        (c.percentChange = none ↔
          lookupD (accumCategorySpend (expensesOf ptx py mo e)) c.name = 0)) := by
  have htPY : 0 ≤ (processTransactions ctx ptx cy py mo e now).totalPreviousYear := by
    rw [totalPreviousYear_proj]
    exact jround_nonneg (cumPlain_nonneg _
      (accumDaily_nonneg (getDayFn mo py) (maxDaysOf mo cy) (expensesOf ptx py mo e)) _)
  constructor
  · rw [percentChange_proj]
    by_cases h : 0 < (processTransactions ctx ptx cy py mo e now).totalPreviousYear
    · rw [if_pos h]
      constructor
      · intro hsome
        exact absurd hsome (Option.some_ne_none _)
      · intro h0
        omega
    · rw [if_neg h]
      constructor
      · intro _
        omega
      · intro _
        rfl
  · intro c hc
    rw [topCategories_proj] at hc
    obtain ⟨hpc, _, _, _⟩ := mem_topCategoriesOf hc
    have hpy : 0 ≤ lookupD (accumCategorySpend (expensesOf ptx py mo e)) c.name :=
      lookupD_nonneg (accumCategorySpend_values_nonneg _) c.name
    rw [hpc]
    by_cases h : 0 < lookupD (accumCategorySpend (expensesOf ptx py mo e)) c.name
    · rw [if_pos h]
      constructor
      · intro hsome
        exact absurd hsome (Option.some_ne_none _)
      · intro h0
        rw [h0] at h
        exact absurd h (lt_irrefl 0)
    · rw [if_neg h]
      constructor
      · intro _
        linarith
      · intro _
        rfl

/-- C5 witness: in the run with a single previous-period expense of 0.3 units,
the Food top-category entry has rounded `previousYear = 0` yet numeric
`percentChange = -100`; by the theorem its unrounded previous spend is
nonzero. -/
theorem c5_witness :
    lookupD (accumCategorySpend (expensesOf [txSmall] 2023 none none)) ("Food") ≠ 0 := by
  have hmem : (⟨"Food", 0, 0, 0, some (-100)⟩ : CategorySpend) ∈
      (processTransactions [] [txSmall] 2024 2023 none none now0).topCategories := by
    with_unfolding_all decide
  intro h0
  exact Option.noConfusion
    (((c5_percentChange_null_iff [] [txSmall] 2024 2023 none none now0).2 _ hmem).mpr h0)

/-- C5 counterexample: with one previous-period expense of 0.3 units, the sole
`topCategories` entry has exposed `previousYear` amount 0 (0.3 rounds to 0),
yet its `percentChange` is `-100`, not null — refuting "null iff that entry's
previousYear amount is 0". -/
theorem c5_counterexample :
    (processTransactions [] [txSmall] 2024 2023 none none now0).topCategories =
      [⟨"Food", 0, 0, 0, some (-100)⟩] := by
  with_unfolding_all decide

theorem expensesOf_amount_pos {tx : List Transaction} {y : Nat} {mo : Option Nat}
    {e : Option (List String)} {t : Transaction} (ht : t ∈ expensesOf tx y mo e) :
    0 < absParse t.amount :=
  absParse_pos_of_parseLt0 (mem_filterExpenses (mem_exclusionFilter ht)).2.2.2

/-- C8: `topCategories` contains at most 8 entries, is sorted descending by
the rounded period-A (`currentYear`) amount, and every entry names a category
with nonzero (positive) spend in at least one period's post-exclusion expense
set. -/
theorem c8_topCategories (ctx ptx : List Transaction) (cy py : Nat) (mo : Option Nat)
    (e : Option (List String)) (now : Ymd) :
    (processTransactions ctx ptx cy py mo e now).topCategories.length ≤ 8 ∧
      List.Pairwise (fun a b => b.currentYear ≤ a.currentYear)
        (processTransactions ctx ptx cy py mo e now).topCategories ∧
      ∀ c ∈ (processTransactions ctx ptx cy py mo e now).topCategories,
        0 < lookupD (accumCategorySpend (expensesOf ctx cy mo e)) c.name ∨
          0 < lookupD (accumCategorySpend (expensesOf ptx py mo e)) c.name := by
  rw [topCategories_proj]
  refine ⟨?_, ?_, ?_⟩
  · show (topCategoriesOf _ _).length ≤ 8
    simp only [topCategoriesOf]
    exact List.length_take_le 8 _
  · have hs := List.sorted_mergeSort csLe_trans csLe_total
      ((dedupKF ((accumCategorySpend (expensesOf ctx cy mo e)).map Prod.fst ++
          (accumCategorySpend (expensesOf ptx py mo e)).map Prod.fst)).map
        (fun n =>
          CategorySpend.mk n (jround (lookupD (accumCategorySpend (expensesOf ctx cy mo e)) n))
            (jround (lookupD (accumCategorySpend (expensesOf ptx py mo e)) n))
            (jround (lookupD (accumCategorySpend (expensesOf ctx cy mo e)) n -
              lookupD (accumCategorySpend (expensesOf ptx py mo e)) n))
            (if 0 < lookupD (accumCategorySpend (expensesOf ptx py mo e)) n then
              some ((lookupD (accumCategorySpend (expensesOf ctx cy mo e)) n -
                  lookupD (accumCategorySpend (expensesOf ptx py mo e)) n) /
                lookupD (accumCategorySpend (expensesOf ptx py mo e)) n * 100)
            else none)))
    have hsub : List.Sublist (topCategoriesOf (accumCategorySpend (expensesOf ctx cy mo e))
        (accumCategorySpend (expensesOf ptx py mo e)))
        (List.mergeSort _ csLe) := List.take_sublist 8 _
    have hp := List.Pairwise.sublist hsub hs
    exact hp.imp (fun hab => by simpa [csLe] using hab)
  · intro c hc
    obtain ⟨_, _, _, hmem⟩ := mem_topCategoriesOf hc
    rcases hmem with hmem | hmem
    · exact Or.inl (lookupD_pos
        (accumCategorySpend_values_pos (fun t ht => expensesOf_amount_pos ht)) hmem)
    · exact Or.inr (lookupD_pos
        (accumCategorySpend_values_pos (fun t ht => expensesOf_amount_pos ht)) hmem)

/-- C8 witness: the theorem applied to the worked example, at its single
entry. -/
theorem c8_witness :
    0 < lookupD (accumCategorySpend (expensesOf [txFood] 2024 none none)) ("Food") ∨
      0 < lookupD (accumCategorySpend (expensesOf [] 2023 none none)) ("Food") :=
  (c8_topCategories [txFood] [] 2024 2023 none none now0).2.2 csFood
    (by with_unfolding_all decide)

theorem sortTxByDate_sorted (txs : List Transaction) :
    List.Pairwise (fun a b => ymdLe a.date b.date = true) (sortTxByDate txs) :=
  List.sorted_mergeSort (fun a b c => ymdLe_trans a.date b.date c.date)
    (fun a b => ymdLe_total a.date b.date) txs

theorem weeklyDataOf_map_week (getW : Ymd → Nat) (ce pe : List Transaction) :
    (weeklyDataOf getW ce pe).map (fun en => en.week) = allWeeksOf getW ce pe := by
  simp only [weeklyDataOf, List.map_map]
  have h : ((fun en : WeeklyDataEntry => en.week) ∘ fun w =>
      ({ week := w
         currentYearTotal := jround (weekTotal getW ce w)
         currentYearCount := (weekTxs getW ce w).length
         currentYearTransactions := sortTxByDate (weekTxs getW ce w)
         previousYearTotal := jround (weekTotal getW pe w)
         previousYearCount := (weekTxs getW pe w).length
         previousYearTransactions := sortTxByDate (weekTxs getW pe w) } : WeeklyDataEntry)) =
      fun w => w := funext fun w => rfl
  rw [h, List.map_id']

theorem allWeeksOf_pairwise_lt (getW : Ymd → Nat) (ce pe : List Transaction) :
    List.Pairwise (· < ·) (allWeeksOf getW ce pe) := by
  have hsorted := List.sorted_mergeSort natLeB_trans natLeB_total
    (dedupKF ((ce.map (fun t => getW t.date)) ++ (pe.map (fun t => getW t.date))))
  have hnodup : (allWeeksOf getW ce pe).Nodup :=
    ((List.mergeSort_perm _ _).nodup_iff).mpr (nodup_dedupKF _)
  have hand := List.Pairwise.and hsorted hnodup
  exact hand.imp (fun hab => lt_of_le_of_ne (by simpa using hab.1) hab.2)

/-- C7: in every weekly entry the per-period transaction lists are sorted
ascending by date; the sequence of week keys is strictly ascending and
contains a week number exactly when one of the two periods' (post-exclusion)
expense sets has a transaction in that week — i.e. it is the sorted union of
both periods' non-empty buckets. -/
theorem c7_weeklyData (ctx ptx : List Transaction) (cy py : Nat) (mo : Option Nat)
    (e : Option (List String)) (now : Ymd) :
    (∀ en ∈ (processTransactions ctx ptx cy py mo e now).weeklyData,
        List.Pairwise (fun a b => ymdLe a.date b.date = true) en.currentYearTransactions ∧
          List.Pairwise (fun a b => ymdLe a.date b.date = true) en.previousYearTransactions) ∧
      List.Pairwise (· < ·)
        ((processTransactions ctx ptx cy py mo e now).weeklyData.map (fun en => en.week)) ∧
      (∀ w : Nat,
        w ∈ (processTransactions ctx ptx cy py mo e now).weeklyData.map (fun en => en.week) ↔
          ((∃ t ∈ expensesOf ctx cy mo e, getWeekFn mo t.date = w) ∨
            (∃ t ∈ expensesOf ptx py mo e, getWeekFn mo t.date = w))) := by
  refine ⟨?_, ?_, ?_⟩
  · intro en hen
    rw [weeklyData_proj] at hen
    simp only [weeklyDataOf] at hen
    rcases List.mem_map.mp hen with ⟨w, _, rfl⟩
    exact ⟨sortTxByDate_sorted _, sortTxByDate_sorted _⟩
  · rw [weeklyData_proj, weeklyDataOf_map_week]
    exact allWeeksOf_pairwise_lt (getWeekFn mo) (expensesOf ctx cy mo e) (expensesOf ptx py mo e)
  · intro w
    rw [weeklyData_proj, weeklyDataOf_map_week]
    simp [allWeeksOf, mem_dedupKF, List.mem_append, List.mem_map]

/-- C7 witness: ISO week 1 appears among the week keys of the worked example
(one Food expense dated 2024-01-03). -/
theorem c7_witness :
    (1 : Nat) ∈ (processTransactions [txFood] [] 2024 2023 none none now0).weeklyData.map
      (fun en => en.week) :=
  ((c7_weeklyData [txFood] [] 2024 2023 none none now0).2.2 1).mpr
    (Or.inl ⟨txFood, by with_unfolding_all decide, by with_unfolding_all decide⟩)

theorem getLast?_map_range {α : Type} (f : Nat → α) {D : Nat} (hD : 1 ≤ D) :
    ((List.range D).map f).getLast? = some (f (D - 1)) := by
  obtain ⟨n, rfl⟩ : ∃ n, D = n + 1 := ⟨D - 1, by omega⟩
  rw [List.range_succ, List.map_append]
  simp [List.getLast?_concat]

/-- C4 counterexample: January 2024 viewed with the clock at 2024-01-10 and a
100-unit expense on 2024-01-20. The per-day spends over days 1..31 sum to 100,
but the final cumulative `currentYear` value is 0 (the running sum is held
flat after the current-day marker), and 100 - 0 exceeds the claimed tolerance
of 1 unit per day (31). -/
theorem c4_counterexample :
    |((processTransactions [txLate] [] 2024 2023 (some 1) none ⟨2024, 1, 10⟩).dailyData.map
          (fun en => en.currentDaySpend)).sum -
        (((processTransactions [txLate] [] 2024 2023 (some 1) none
            ⟨2024, 1, 10⟩).dailyData.getLast?.map (fun en => en.currentYear)).getD 0)| >
      ((processTransactions [txLate] [] 2024 2023 (some 1) none ⟨2024, 1, 10⟩).totalDaysInView : ℤ)
    := by
  with_unfolding_all decide

/-- C4 (amended): for the previous-year period the claim holds as stated: the
sum of `previousDaySpend` over all days 1..totalDaysInView equals the final
cumulative `previousYear` value within 1 unit per day. For the current-year
period it holds with the sum restricted to the days whose spend actually
enters the running sum: all days when yearA is not the present year of the
engine's clock, and only days up to the current-day marker when it is (beyond
the marker the cumulative is held flat, so later spend is excluded from it by
design). -/
theorem c4_daily_sum_tolerance (ctx ptx : List Transaction) (cy py : Nat) (mo : Option Nat)
    (e : Option (List String)) (now : Ymd) :
    |((processTransactions ctx ptx cy py mo e now).dailyData.map
          (fun en => en.previousDaySpend)).sum -
        (((processTransactions ctx ptx cy py mo e now).dailyData.getLast?.map
          (fun en => en.previousYear)).getD 0)| ≤
      ((processTransactions ctx ptx cy py mo e now).totalDaysInView : ℤ) ∧
    |(((processTransactions ctx ptx cy py mo e now).dailyData.filter (fun en =>
            decide (en.day ≤ (if isCurrentYearOf cy now = true then currentDayNumOf mo cy now
              else totalDaysInViewOf mo cy)))).map (fun en => en.currentDaySpend)).sum -
        (((processTransactions ctx ptx cy py mo e now).dailyData.getLast?.map
          (fun en => en.currentYear)).getD 0)| ≤
      ((processTransactions ctx ptx cy py mo e now).totalDaysInView : ℤ) := by
  have hD : 1 ≤ totalDaysInViewOf mo cy := totalDaysInView_pos mo cy
  rw [dailyData_proj, totalDaysInView_proj]
  set daily := accumDaily (getDayFn mo cy) (maxDaysOf mo cy) (expensesOf ctx cy mo e) with hdaily
  set pdaily := accumDaily (getDayFn mo py) (maxDaysOf mo cy) (expensesOf ptx py mo e) with hpd
  set dbc := accumDailyByCat (getDayFn mo cy) (maxDaysOf mo cy) (expensesOf ctx cy mo e) with hdbc
  set pdbc := accumDailyByCat (getDayFn mo py) (maxDaysOf mo cy) (expensesOf ptx py mo e)
    with hpdbc
  set cdn := currentDayNumOf mo cy now with hcdn
  set icy := isCurrentYearOf cy now with hicy
  set D := totalDaysInViewOf mo cy with hDdef
  have hlast : (dailyDataOf mo cy cdn icy daily pdaily dbc pdbc D).getLast? =
      some (dailyEntry mo cy cdn icy daily pdaily dbc pdbc ((D - 1) + 1)) := by
    rw [dailyDataOf, getLast?_map_range _ hD]
  have hD1 : (D - 1) + 1 = D := by omega
  constructor
  · have hmap : ((dailyDataOf mo cy cdn icy daily pdaily dbc pdbc D).map
        (fun en => en.previousDaySpend)) =
        (List.range D).map (fun i => jround (pdaily (i + 1))) := by
      rw [dailyDataOf, List.map_map]
      rfl
    rw [hmap, hlast]
    show |((List.range D).map (fun i => jround (pdaily (i + 1)))).sum -
        jround (cumPlain pdaily ((D - 1) + 1))| ≤ (D : ℤ)
    rw [hD1]
    exact sum_jround_close pdaily D D (le_refl D) hD
  · set kcur := if icy = true then cdn else D with hkcur
    have hfilter : ((dailyDataOf mo cy cdn icy daily pdaily dbc pdbc D).filter (fun en =>
          decide (en.day ≤ kcur))) =
        (List.range (min kcur D)).map
          (fun i => dailyEntry mo cy cdn icy daily pdaily dbc pdbc (i + 1)) := by
      rw [dailyDataOf, List.filter_map]
      have hcomp : ((fun en : DailyData => decide (en.day ≤ kcur)) ∘
          (fun i => dailyEntry mo cy cdn icy daily pdaily dbc pdbc (i + 1))) =
          (fun i => decide (i + 1 ≤ kcur)) := funext fun i => rfl
      rw [hcomp, range_filter_le]
    have hmap2 : (((List.range (min kcur D)).map
          (fun i => dailyEntry mo cy cdn icy daily pdaily dbc pdbc (i + 1))).map
        (fun en => en.currentDaySpend)) =
        (List.range (min kcur D)).map (fun i => jround (daily (i + 1))) := by
      rw [List.map_map]
      rfl
    have hcum : cumHold daily cdn icy D = cumPlain daily (min kcur D) := by
      cases hi : icy with
      | true =>
        rw [hkcur]
        simp only [hi, if_pos]
        exact cumHold_true daily cdn D
      | false =>
        rw [hkcur]
        simp only [hi]
        rw [cumHold_false daily cdn D]
        have : min D D = D := by omega
        rw [if_neg (by simp), this]
    rw [hfilter, hmap2, hlast]
    show |((List.range (min kcur D)).map (fun i => jround (daily (i + 1)))).sum -
        jround (cumHold daily cdn icy ((D - 1) + 1))| ≤ (D : ℤ)
    rw [hD1, hcum]
    exact sum_jround_close daily (min kcur D) D (by omega) hD

theorem accumDailyStep_skip (g : Ymd → Nat) (maxD : Nat) (acc : Nat → ℚ) (t : Transaction)
    (h : ¬(1 ≤ g t.date ∧ g t.date ≤ maxD)) :
    List.foldl
      (fun acc t =>
        let day := g t.date
        if 1 ≤ day ∧ day ≤ maxD then bumpFun acc day (absParse t.amount) else acc)
      acc [t] = acc := by
  show (if 1 ≤ g t.date ∧ g t.date ≤ maxD then bumpFun acc (g t.date) (absParse t.amount)
    else acc) = acc
  rw [if_neg h]

theorem accumDaily_concat_skip (g : Ymd → Nat) (maxD : Nat) (l : List Transaction)
    (t : Transaction) (h : ¬(1 ≤ g t.date ∧ g t.date ≤ maxD)) :
    accumDaily g maxD (l ++ [t]) = accumDaily g maxD l := by
  unfold accumDaily
  rw [List.foldl_append, accumDailyStep_skip g maxD _ t h]

theorem accumDailyByCatStep_skip (g : Ymd → Nat) (maxD : Nat)
    (acc : Nat → List (String × ℚ)) (t : Transaction)
    (h : ¬(1 ≤ g t.date ∧ g t.date ≤ maxD)) :
    List.foldl
      (fun acc t =>
        let day := g t.date
        if 1 ≤ day ∧ day ≤ maxD then
          bumpFunCat acc day (normCat t.category_name) (absParse t.amount)
        else acc)
      acc [t] = acc := by
  show (if 1 ≤ g t.date ∧ g t.date ≤ maxD then
      bumpFunCat acc (g t.date) (normCat t.category_name) (absParse t.amount)
    else acc) = acc
  rw [if_neg h]

theorem accumDailyByCat_concat_skip (g : Ymd → Nat) (maxD : Nat) (l : List Transaction)
    (t : Transaction) (h : ¬(1 ≤ g t.date ∧ g t.date ≤ maxD)) :
    accumDailyByCat g maxD (l ++ [t]) = accumDailyByCat g maxD l := by
  unfold accumDailyByCat
  rw [List.foldl_append, accumDailyByCatStep_skip g maxD _ t h]

theorem filterExpenses_concat_expense {l : List Transaction} {t : Transaction}
    (h1 : t.is_income = false) (h2 : t.exclude_from_totals = false)
    (h3 : parseLt0 t.amount = true) :
    filterExpenses (l ++ [t]) = filterExpenses l ++ [t] := by
  rw [filterExpenses_append]
  have h5 : filterExpenses [t] = [t] := by
    simp [filterExpenses, h1, h2, h3]
  rw [h5]

theorem expensesOf_concat_expense {l : List Transaction} {y : Nat} {E : Option (List String)}
    {t : Transaction} (h1 : t.is_income = false) (h2 : t.exclude_from_totals = false)
    (h3 : parseLt0 t.amount = true) (h4 : exclusionFilter E [t] = [t]) :
    expensesOf (l ++ [t]) y none E = expensesOf l y none E ++ [t] := by
  show exclusionFilter E (filterExpenses (l ++ [t])) =
    exclusionFilter E (filterExpenses l) ++ [t]
  rw [filterExpenses_concat_expense h1 h2 h3, exclusionFilter_append, h4]

theorem weeklyDataOf_mem_bucket {getW : Ymd → Nat} {ce pe : List Transaction} {t : Transaction}
    (ht : t ∈ ce) :
    ∃ en ∈ weeklyDataOf getW ce pe,
      en.week = getW t.date ∧ t ∈ en.currentYearTransactions := by
  have hw : getW t.date ∈ allWeeksOf getW ce pe := by
    simp only [allWeeksOf, List.mem_mergeSort, mem_dedupKF, List.mem_append, List.mem_map]
    exact Or.inl ⟨t, ht, rfl⟩
  refine ⟨_, List.mem_map.mpr ⟨getW t.date, hw, rfl⟩, rfl, ?_⟩
  show t ∈ sortTxByDate (weekTxs getW ce (getW t.date))
  rw [sortTxByDate, List.mem_mergeSort]
  exact List.mem_filter.mpr ⟨ht, by simp⟩

theorem weeklyDataOf_mem_bucket_prev {getW : Ymd → Nat} {ce pe : List Transaction}
    {t : Transaction} (ht : t ∈ pe) :
    ∃ en ∈ weeklyDataOf getW ce pe,
      en.week = getW t.date ∧ t ∈ en.previousYearTransactions := by
  have hw : getW t.date ∈ allWeeksOf getW ce pe := by
    simp only [allWeeksOf, List.mem_mergeSort, mem_dedupKF, List.mem_append, List.mem_map]
    exact Or.inr ⟨t, ht, rfl⟩
  refine ⟨_, List.mem_map.mpr ⟨getW t.date, hw, rfl⟩, rfl, ?_⟩
  show t ∈ sortTxByDate (weekTxs getW pe (getW t.date))
  rw [sortTxByDate, List.mem_mergeSort]
  exact List.mem_filter.mpr ⟨ht, by simp⟩

/-- C10: in the year view, an expense transaction (not income, not flagged
excluded, negative parsed amount, surviving category exclusion) dated outside
the current period's calendar year has day index 0, so appending it to the
current period's input changes neither `dailyData` nor either exposed total —
yet its absolute amount is added to its category's entry in the per-category
spend record feeding `topCategories`, to the pre-exclusion record behind
`categoryTotals`, and the transaction itself lands in its ISO week's
`weeklyData` bucket; symmetrically for the previous period. -/
theorem c10_out_of_year (ctx ptx : List Transaction) (cy py : Nat) (E : Option (List String))
    (now : Ymd) (t : Transaction)
    (h1 : t.is_income = false) (h2 : t.exclude_from_totals = false)
    (h3 : parseLt0 t.amount = true) (h4 : exclusionFilter E [t] = [t]) :
    (t.date.year ≠ cy →
      (getDayFn none cy t.date = 0 ∧
        (processTransactions (ctx ++ [t]) ptx cy py none E now).dailyData =
          (processTransactions ctx ptx cy py none E now).dailyData ∧
        (processTransactions (ctx ++ [t]) ptx cy py none E now).totalCurrentYear =
          (processTransactions ctx ptx cy py none E now).totalCurrentYear ∧
        (processTransactions (ctx ++ [t]) ptx cy py none E now).totalPreviousYear =
          (processTransactions ctx ptx cy py none E now).totalPreviousYear ∧
        lookupD (accumCategorySpend (expensesOf (ctx ++ [t]) cy none E))
            (normCat t.category_name) =
          lookupD (accumCategorySpend (expensesOf ctx cy none E)) (normCat t.category_name) +
            absParse t.amount ∧
        lookupD (accumCategorySpend (filterExpenses (ctx ++ [t]))) (normCat t.category_name) =
          lookupD (accumCategorySpend (filterExpenses ctx)) (normCat t.category_name) +
            absParse t.amount ∧
        ∃ en ∈ (processTransactions (ctx ++ [t]) ptx cy py none E now).weeklyData,
          en.week = getWeekNumber t.date ∧ t ∈ en.currentYearTransactions)) ∧
    (t.date.year ≠ py →
      (getDayFn none py t.date = 0 ∧
        (processTransactions ctx (ptx ++ [t]) cy py none E now).dailyData =
          (processTransactions ctx ptx cy py none E now).dailyData ∧
        (processTransactions ctx (ptx ++ [t]) cy py none E now).totalCurrentYear =
          (processTransactions ctx ptx cy py none E now).totalCurrentYear ∧
        (processTransactions ctx (ptx ++ [t]) cy py none E now).totalPreviousYear =
          (processTransactions ctx ptx cy py none E now).totalPreviousYear ∧
        lookupD (accumCategorySpend (expensesOf (ptx ++ [t]) py none E))
            (normCat t.category_name) =
          lookupD (accumCategorySpend (expensesOf ptx py none E)) (normCat t.category_name) +
            absParse t.amount ∧
        lookupD (accumCategorySpend (filterExpenses (ptx ++ [t]))) (normCat t.category_name) =
          lookupD (accumCategorySpend (filterExpenses ptx)) (normCat t.category_name) +
            absParse t.amount ∧
        ∃ en ∈ (processTransactions ctx (ptx ++ [t]) cy py none E now).weeklyData,
          en.week = getWeekNumber t.date ∧ t ∈ en.previousYearTransactions)) := by
  constructor
  · intro hyear
    have hday : getDayFn none cy t.date = 0 := by
      show getDayOfYear t.date cy = 0
      simp [getDayOfYear, hyear]
    have hceT := expensesOf_concat_expense (l := ctx) (y := cy) (E := E) h1 h2 h3 h4
    have hnr : ¬(1 ≤ getDayFn none cy t.date ∧ getDayFn none cy t.date ≤ maxDaysOf none cy) := by
      rw [hday]
      omega
    have hdT : accumDaily (getDayFn none cy) (maxDaysOf none cy)
        (expensesOf (ctx ++ [t]) cy none E) =
        accumDaily (getDayFn none cy) (maxDaysOf none cy) (expensesOf ctx cy none E) := by
      rw [hceT]
      exact accumDaily_concat_skip _ _ _ _ hnr
    have hbT : accumDailyByCat (getDayFn none cy) (maxDaysOf none cy)
        (expensesOf (ctx ++ [t]) cy none E) =
        accumDailyByCat (getDayFn none cy) (maxDaysOf none cy) (expensesOf ctx cy none E) := by
      rw [hceT]
      exact accumDailyByCat_concat_skip _ _ _ _ hnr
    refine ⟨hday, ?_, ?_, ?_, ?_, ?_, ?_⟩
    · rw [dailyData_proj, dailyData_proj, hdT, hbT]
    · rw [totalCurrentYear_proj, totalCurrentYear_proj, hdT]
    · rw [totalPreviousYear_proj, totalPreviousYear_proj]
    · rw [hceT, accumCategorySpend_concat, lookupD_bump_self]
    · rw [filterExpenses_concat_expense h1 h2 h3, accumCategorySpend_concat, lookupD_bump_self]
    · rw [weeklyData_proj]
      have ht : t ∈ expensesOf (ctx ++ [t]) cy none E := by
        rw [hceT]
        exact List.mem_append_right _ (List.mem_singleton.mpr rfl)
      exact weeklyDataOf_mem_bucket ht
  · intro hyear
    have hday : getDayFn none py t.date = 0 := by
      show getDayOfYear t.date py = 0
      simp [getDayOfYear, hyear]
    have hpeT := expensesOf_concat_expense (l := ptx) (y := py) (E := E) h1 h2 h3 h4
    have hnr : ¬(1 ≤ getDayFn none py t.date ∧ getDayFn none py t.date ≤ maxDaysOf none cy) := by
      rw [hday]
      omega
    have hdT : accumDaily (getDayFn none py) (maxDaysOf none cy)
        (expensesOf (ptx ++ [t]) py none E) =
        accumDaily (getDayFn none py) (maxDaysOf none cy) (expensesOf ptx py none E) := by
      rw [hpeT]
      exact accumDaily_concat_skip _ _ _ _ hnr
    have hbT : accumDailyByCat (getDayFn none py) (maxDaysOf none cy)
        (expensesOf (ptx ++ [t]) py none E) =
        accumDailyByCat (getDayFn none py) (maxDaysOf none cy) (expensesOf ptx py none E) := by
      rw [hpeT]
      exact accumDailyByCat_concat_skip _ _ _ _ hnr
    refine ⟨hday, ?_, ?_, ?_, ?_, ?_, ?_⟩
    · rw [dailyData_proj, dailyData_proj, hdT, hbT]
    · rw [totalCurrentYear_proj, totalCurrentYear_proj]
    · rw [totalPreviousYear_proj, totalPreviousYear_proj, hdT]
    · rw [hpeT, accumCategorySpend_concat, lookupD_bump_self]
    · rw [filterExpenses_concat_expense h1 h2 h3, accumCategorySpend_concat, lookupD_bump_self]
    · rw [weeklyData_proj]
      have ht : t ∈ expensesOf (ptx ++ [t]) py none E := by
        rw [hpeT]
        exact List.mem_append_right _ (List.mem_singleton.mpr rfl)
      exact weeklyDataOf_mem_bucket_prev ht

/-- C10 witness: a Food expense dated 2023-05-01 placed in the current (2024)
period leaves `dailyData` identical to the run without it, by the theorem. -/
theorem c10_witness :
    (processTransactions [txWrongYear] [] 2024 2023 none none now0).dailyData =
      (processTransactions [] [] 2024 2023 none none now0).dailyData :=
  ((c10_out_of_year [] [] 2024 2023 none now0 txWrongYear rfl rfl
      (by with_unfolding_all decide) rfl).1 (by decide)).2.1
